import Mathlib

/-!
# Media diary: record store, collection store and query layer

A shallow embedding of `src/js/storage.js` (and the parts of `src/js/app.js`
and `src/js/api.js` that use it).

Modelling conventions.

* A JavaScript object is a `Record` whose fields are optional: `none` is a key
  that reads as `undefined`.  Such a key is absent, or, when it is listed in
  `undefinedKeys`, present with the value `undefined`; only an object built in
  memory has keys of the second kind, `JSON.stringify` drops them.
* `localStorage` is a two-slot key-value store with a quota.  A slot is `none`
  when the key is absent or its text does not parse.  `setItem` throws when the
  new text is longer than the old one and the two texts together do not fit
  the capacity of the storage; `saveRecords` / `saveCollections` then write
  nothing and return `false`.  The length of the text of an array is that of
  its brackets, elements and commas; the length of the text of one element is
  the host's.
* JSON text is not modelled: a slot holds the parsed value, and
  `JSON.parse (JSON.stringify v)` is `v`.
* Numbers are exact rationals.
* `Date.now()`, `generateId()`, `new Date()` and `new Date(text)` are supplied
  by an environment `Env`; `new Date(text)` is read through its local year and
  month, `none` standing for an invalid date.
* `Array.prototype.sort` is a stable insertion sort in which a `NaN` comparator
  result counts as `+0`.  Every engine agrees with it when the comparator is
  consistent (all compared records rated); otherwise the order is the
  engine's, and the model shows one order such a sort can give.
* `trim` strips the white space and line terminators of ECMAScript;
  `toLowerCase` is computed on ASCII text and is the host's on other text.
* The `length` of a text counts UTF-16 code units.
-/

namespace MediaDiary

/-! ## Data model -/

/-- The keys a record can carry. -/
inductive Key where
  | id | title | type | year | thumbnail | author | rating | date | note | tags
  | createdAt | updatedAt
deriving DecidableEq

/-- A media record; every key may be absent.  `undefinedKeys` lists the keys that an object
built in memory has with the value `undefined`; it is empty on a record read from storage. -/
structure Record where
  id : Option String
  title : Option String
  type : Option String
  year : Option String
  thumbnail : Option (Option String)
  author : Option String
  rating : Option ℚ
  date : Option String
  note : Option String
  tags : Option (List String)
  createdAt : Option Nat
  updatedAt : Option Nat
  undefinedKeys : List Key
deriving DecidableEq

/-- The object literal without any key. -/
def Record.empty : Record :=
  { id := none, title := none, type := none, year := none, thumbnail := none,
    author := none, rating := none, date := none, note := none, tags := none,
    createdAt := none, updatedAt := none, undefinedKeys := [] }

/-- Calendar year and zero-based month, as `getFullYear()` / `getMonth()` give them. -/
structure YearMonth where
  year : Int
  month : Nat
deriving DecidableEq

/-- What the host supplies: the clock, the id generator and the `Date` constructor. -/
structure Env where
  /-- First reading of `Date.now()` in a call. -/
  now : Nat
  /-- Second reading of `Date.now()` in the same call. -/
  nowAgain : Nat
  /-- Result of `generateId()`. -/
  generateId : String
  /-- Local year and month of `new Date()`. -/
  today : YearMonth
  /-- Local year and month of `new Date(text)`; `none` for an invalid date. -/
  parseDate : String → Option YearMonth
  /-- Result of `new Date().toISOString()`. -/
  isoNow : String
  /-- Result of `text.toLowerCase()` for a text that is not all ASCII. -/
  lowerCase : String → String

/-- The two `localStorage` slots, already parsed, and the room the host grants them. -/
structure Storage where
  records : Option (List Record)
  collections : Option (List String)
  /-- Room, in code units, that the host grants to the two serialised arrays. -/
  capacity : Nat
  /-- Length of the text `JSON.stringify` writes for one record. -/
  recordLength : Record → Nat
  /-- Length of the text `JSON.stringify` writes for one collection name. -/
  nameLength : String → Nat

/-- Length of the text of a JSON array whose elements have the given lengths: two brackets,
the elements, and a comma between neighbours. -/
def arrayLength (items : List Nat) : Nat :=
  2 + items.sum + (items.length - 1)

/-- Room taken by the stored records (none when the slot holds no parsed array). -/
def Storage.recordsUse (s : Storage) : Nat :=
  match s.records with
  | some data => arrayLength (data.map s.recordLength)
  | none => 0

/-- Room taken by the stored collection names (none when the slot holds no parsed array). -/
def Storage.collectionsUse (s : Storage) : Nat :=
  match s.collections with
  | some data => arrayLength (data.map s.nameLength)
  | none => 0

/-- Whether `setItem` accepts a write after which the two slots take `newUse` code units: the
storage does not grow, or the result fits the capacity. -/
def Storage.accepts (s : Storage) (newUse : Nat) : Bool :=
  decide (newUse ≤ s.recordsUse + s.collectionsUse) || decide (newUse ≤ s.capacity)

/-! ## Record store -/

/-- Embedding of `loadRecords`: the parsed array, or `[]` when absent or corrupt. -/
def loadRecords (s : Storage) : List Record :=
  match s.records with
  | some data => data
  | none => []

/-- Embedding of `saveRecords`: writes the whole array and returns `true`, or, when `setItem`
throws, writes nothing and returns `false`. -/
def saveRecords (s : Storage) (records : List Record) : Storage × Bool :=
  if s.accepts (arrayLength (records.map s.recordLength) + s.collectionsUse) then
    ({ s with records := some records }, true)
  else (s, false)

/-- JavaScript `a || b` on an optional string: `b` when `a` is absent or empty. -/
def orElseStr (a : Option String) (b : String) : String :=
  match a with
  | some v => if v = "" then b else v
  | none => b

/-- Embedding of `Array.prototype.findIndex`; `none` stands for `-1`. -/
def findIndex {α : Type} (p : α → Bool) : List α → Option Nat
  | [] => none
  | x :: xs => if p x then some 0 else (findIndex p xs).map (· + 1)

/-- One key of `{ ...old, ...new }`: the value of `new` when it has one, no value when `new`
has the key with the value `undefined`, and the value of `old` otherwise. -/
def spreadKey {α : Type} (key : Key) (new : Record) (newValue oldValue : Option α) :
    Option α :=
  match newValue with
  | some v => some v
  | none => if key ∈ new.undefinedKeys then none else oldValue

/-- Object spread `{ ...old, ...new }`: a key of `new` wins, also when its value is
`undefined`; other keys come from `old`. -/
def spread (old new : Record) : Record :=
  { id := spreadKey Key.id new new.id old.id
    title := spreadKey Key.title new new.title old.title
    type := spreadKey Key.type new new.type old.type
    year := spreadKey Key.year new new.year old.year
    thumbnail := spreadKey Key.thumbnail new new.thumbnail old.thumbnail
    author := spreadKey Key.author new new.author old.author
    rating := spreadKey Key.rating new new.rating old.rating
    date := spreadKey Key.date new new.date old.date
    note := spreadKey Key.note new new.note old.note
    tags := spreadKey Key.tags new new.tags old.tags
    createdAt := spreadKey Key.createdAt new new.createdAt old.createdAt
    updatedAt := spreadKey Key.updatedAt new new.updatedAt old.updatedAt
    undefinedKeys := new.undefinedKeys ++ old.undefinedKeys }

/-- The record written at `records[index]` when the id is already stored, as
`JSON.stringify` writes it (without the keys whose value is `undefined`). -/
def mergedRecord (env : Env) (old record : Record) : Record :=
  { spread old record with updatedAt := some env.now, undefinedKeys := [] }

/-- The record unshifted when the id is not stored yet, as `JSON.stringify` writes it
(without the keys whose value is `undefined`). -/
def insertedRecord (env : Env) (record : Record) : Record :=
  { record with
    id := some (orElseStr record.id env.generateId)
    createdAt := some env.now
    updatedAt := some env.nowAgain
    undefinedKeys := [] }

/-- The array `upsertRecord` hands to `saveRecords`. -/
def upsertList (env : Env) (records : List Record) (record : Record) : List Record :=
  match findIndex (fun r => decide (r.id = record.id)) records with
  | some index => records.set index (mergedRecord env (records.getD index Record.empty) record)
  | none => insertedRecord env record :: records

/-- Embedding of `upsertRecord`: returns its argument and the new storage. -/
def upsertRecord (env : Env) (s : Storage) (record : Record) : Record × Storage :=
  (record, (saveRecords s (upsertList env (loadRecords s) record)).1)

/-- Embedding of `deleteRecord`. -/
def deleteRecord (s : Storage) (id : Option String) : Storage :=
  (saveRecords s ((loadRecords s).filter (fun r => decide (r.id ≠ id)))).1

/-! ## Collection store -/

/-- Embedding of `loadCollections`. -/
def loadCollections (s : Storage) : List String :=
  match s.collections with
  | some data => data
  | none => []

/-- Embedding of `saveCollections`: writes the whole array and returns `true`, or, when
`setItem` throws, writes nothing and returns `false`. -/
def saveCollections (s : Storage) (collections : List String) : Storage × Bool :=
  if s.accepts (s.recordsUse + arrayLength (collections.map s.nameLength)) then
    ({ s with collections := some collections }, true)
  else (s, false)

/-! ## String primitives used by the query layer -/

/-- Whether every character of the text is ASCII. -/
def isAscii (s : String) : Bool :=
  s.data.all (fun c => decide (c.toNat < 128))

/-- Model of `String.prototype.toLowerCase`: computed on ASCII text, where it folds the letters
`A` to `Z`; the host's Unicode case mapping on any other text. -/
def toLowerCase (env : Env) (s : String) : String :=
  if isAscii s then ⟨s.data.map Char.toLower⟩ else env.lowerCase s

/-- White space and line terminators of ECMAScript, which `trim` removes: tab, line feed,
vertical tab, form feed, carriage return, space, no-break space, the space separators
U+1680, U+2000 to U+200A, U+202F, U+205F and U+3000, the line and paragraph separators
U+2028 and U+2029, and the byte order mark U+FEFF. -/
def isSpace (c : Char) : Bool :=
  (decide (9 ≤ c.toNat) && decide (c.toNat ≤ 13)) || decide (c.toNat = 32) ||
  decide (c.toNat = 160) || decide (c.toNat = 5760) ||
  (decide (8192 ≤ c.toNat) && decide (c.toNat ≤ 8202)) ||
  decide (c.toNat = 8232) || decide (c.toNat = 8233) || decide (c.toNat = 8239) ||
  decide (c.toNat = 8287) || decide (c.toNat = 12288) || decide (c.toNat = 65279)

/-- Both ends stripped of white space. -/
def trimChars (cs : List Char) : List Char :=
  ((cs.dropWhile isSpace).reverse.dropWhile isSpace).reverse

/-- Model of `String.prototype.trim`. -/
def trim (s : String) : String :=
  ⟨trimChars s.data⟩

/-- Whether `text` starts with `pat`. -/
def beginsWith : List Char → List Char → Bool
  | _, [] => true
  | [], _ :: _ => false
  | c :: cs, p :: ps => c == p && beginsWith cs ps

/-- Whether `pat` occurs in `text` as a contiguous run. -/
def includesChars : List Char → List Char → Bool
  | [], pat => pat.isEmpty
  | c :: cs, pat => beginsWith (c :: cs) pat || includesChars cs pat

/-- Model of `String.prototype.includes`. -/
def includes (text pat : String) : Bool :=
  includesChars text.data pat.data

/-- Model of `Array.prototype.join` on strings. -/
def join (sep : String) : List String → String
  | [] => ""
  | [x] => x
  | x :: y :: rest => x ++ sep ++ join sep (y :: rest)

/-! ## Query layer -/

/-- The type test shared by the queries: `type !== "all" && record.type !== type`. -/
def typeRejected (type : String) (record : Record) : Bool :=
  decide (type ≠ "all") && decide (record.type ≠ some type)

/-- The filter callback of `searchRecords`, for the prepared query `q`. -/
def searchKeeps (env : Env) (q type : String) (record : Record) : Bool :=
  if typeRejected type record then false
  else if q = "" then true
  else
    let title := toLowerCase env (orElseStr record.title "")
    let note := toLowerCase env (orElseStr record.note "")
    let tags := toLowerCase env (join "," (record.tags.getD []))
    includes title q || includes note q || includes tags q

/-- Embedding of `searchRecords`. -/
def searchRecords (env : Env) (s : Storage) (query type : String) : List Record :=
  let records := loadRecords s
  let q := trim (toLowerCase env query)
  records.filter (searchKeeps env q type)

/-- Year and month of `new Date(record.date)` when the date is set, non-empty and valid. -/
def dateOf (env : Env) (record : Record) : Option YearMonth :=
  match record.date with
  | none => none
  | some d => if d = "" then none else env.parseDate d

/-- The filter callback of `getMonthlyBest`. -/
def monthlyKeeps (env : Env) (type : String) (record : Record) : Bool :=
  if typeRejected type record then false
  else
    match record.date with
    | none => false
    | some d =>
      if d = "" then false
      else
        match env.parseDate d with
        | none => false
        | some date => decide (date.month = env.today.month) && decide (date.year = env.today.year)

/-- The comparator `(a, b) => b.rating - a.rating`; `none` is `NaN`. -/
def byRatingDesc (a b : Record) : Option ℚ :=
  match b.rating, a.rating with
  | some y, some x => some (y - x)
  | _, _ => none

/-- Whether the sort leaves `a` in front of `b`: the comparator is not positive (`NaN` counts as `+0`). -/
def keepsOrder {α : Type} (cmp : α → α → Option ℚ) (a b : α) : Bool :=
  match cmp a b with
  | some v => decide (v ≤ 0)
  | none => true

/-- Stable insertion of `a` in front of a sorted tail. -/
def insertSorted {α : Type} (cmp : α → α → Option ℚ) (a : α) : List α → List α
  | [] => [a]
  | b :: l => if keepsOrder cmp a b then a :: b :: l else b :: insertSorted cmp a l

/-- Model of `Array.prototype.sort` with a comparator: a stable insertion sort.  With a
consistent comparator every engine returns this order; with an inconsistent one (a missing
rating makes the comparator `NaN`) the order is the engine's, and this is one order that a
stable sort reading `NaN` as `+0` can return. -/
def sortBy {α : Type} (cmp : α → α → Option ℚ) : List α → List α
  | [] => []
  | a :: l => insertSorted cmp a (sortBy cmp l)

/-- Embedding of `getMonthlyBest`. -/
def getMonthlyBest (env : Env) (s : Storage) (type : String) (limit : Nat) : List Record :=
  let records := loadRecords s
  ((records.filter (monthlyKeeps env type)) |> sortBy byRatingDesc).take limit

/-- The object returned by `getStats`. -/
structure Stats where
  books : Nat
  movies : Nat
  avgRating : ℚ
  total : Nat
deriving DecidableEq

/-- The filter callback of `getStats`. -/
def statsKeeps (env : Env) (range : String) (record : Record) : Bool :=
  if range = "all" then true
  else
    match record.date with
    | none => false
    | some d =>
      if d = "" then false
      else
        let date := env.parseDate d
        if range = "year" then
          match date with
          | some ym => decide (ym.year = env.today.year)
          | none => false
        else if range = "month" then
          match date with
          | some ym => decide (ym.year = env.today.year) && decide (ym.month = env.today.month)
          | none => false
        else true

/-- JavaScript `r.rating || 0`. -/
def ratingOrZero (r : Record) : ℚ :=
  match r.rating with
  | some v => v
  | none => 0

/-- Embedding of `getStats`. -/
def getStats (env : Env) (s : Storage) (range : String) : Stats :=
  let records := loadRecords s
  let filtered := records.filter (statsKeeps env range)
  let books := (filtered.filter (fun r => decide (r.type = some "book"))).length
  let movies := (filtered.filter (fun r => decide (r.type = some "movie"))).length
  let avgRating :=
    if filtered.length > 0 then
      filtered.foldl (fun sum r => sum + ratingOrZero r) 0 / filtered.length
    else 0
  { books := books, movies := movies, avgRating := avgRating, total := filtered.length }

/-! ## Export and import -/

/-- The object `exportToJSON` serialises. -/
structure ExportDoc where
  records : List Record
  collections : List String
  exportedAt : String
deriving DecidableEq

/-- A value found under a key of a parsed JSON document (object values are left out). -/
inductive Field (α : Type) where
  | absent : Field α
  | null : Field α
  | array (items : List α) : Field α
  | text (value : String) : Field α
  | number (value : ℚ) : Field α
  | bool (value : Bool) : Field α
deriving DecidableEq

/-- JavaScript truthiness of a document value. -/
def Field.truthy {α : Type} : Field α → Bool
  | .absent => false
  | .null => false
  | .array _ => true
  | .text value => decide (value ≠ "")
  | .number value => decide (value ≠ 0)
  | .bool value => value

/-- Model of `Array.isArray`. -/
def Field.isArray {α : Type} : Field α → Bool
  | .array _ => true
  | _ => false

/-- The `length` of a text: its number of UTF-16 code units. -/
def utf16Length (text : String) : Nat :=
  (text.data.map (fun c => if c.toNat < 65536 then 1 else 2)).sum

/-- JavaScript `value?.length || 0`. -/
def Field.lengthOrZero {α : Type} : Field α → Nat
  | .array items => items.length
  | .text value => utf16Length value
  | _ => 0

/-- The parsed import file, `JSON.parse(text)`. -/
structure ImportDoc where
  records : Field Record
  collections : Field String
  exportedAt : Field String

/-- The object returned by `importFromJSON`. -/
structure ImportCounts where
  recordsCount : Nat
  collectionsCount : Nat
deriving DecidableEq

/-- Embedding of `exportToJSON`: the document that is serialised and downloaded. -/
def exportToJSON (env : Env) (s : Storage) : ExportDoc :=
  let records := loadRecords s
  let collections := loadCollections s
  { records := records, collections := collections, exportedAt := env.isoNow }

/-- What `JSON.parse` reads back from the text `JSON.stringify` wrote for an export document. -/
def ExportDoc.parsed (d : ExportDoc) : ImportDoc :=
  { records := .array d.records, collections := .array d.collections,
    exportedAt := .text d.exportedAt }

/-- The elements of an array value (`[]` for any other value). -/
def Field.items {α : Type} : Field α → List α
  | .array items => items
  | _ => []

/-- Embedding of `importFromJSON`, from the parsed document on. -/
def importFromJSON (s : Storage) (data : ImportDoc) : ImportCounts × Storage :=
  let s1 :=
    if data.records.truthy && data.records.isArray then (saveRecords s data.records.items).1
    else s
  let s2 :=
    if data.collections.truthy && data.collections.isArray then
      (saveCollections s1 data.collections.items).1
    else s1
  ({ recordsCount := data.records.lengthOrZero,
     collectionsCount := data.collections.lengthOrZero }, s2)

/-! ## Adding a collection -/

/-- Embedding of `addCollection`: returns the array it returns and the new storage. -/
def addCollection (s : Storage) (name : String) : List String × Storage :=
  let collections := loadCollections s
  if ¬ name ∈ collections then
    let pushed := collections ++ [name]
    (pushed, (saveCollections s pushed).1)
  else (collections, s)

/-! ## External search adapter (`api.js`) -/

/-- A search result, a manual entry, or the item rebuilt by the edit button; every key may
be absent. -/
structure Item where
  id : Option String
  title : Option String
  year : Option String
  author : Option String
  thumbnail : Option (Option String)
  description : Option String
  type : Option String
  isManual : Option Bool
deriving DecidableEq

/-- The object literal without any key. -/
def Item.empty : Item :=
  { id := none, title := none, year := none, author := none, thumbnail := none,
    description := none, type := none, isManual := none }

/-- The two remote catalogs: for a query, the items of the response already mapped to the
common shape, or `none` when the request fails or is refused. -/
structure Catalogs where
  books : String → Option (List Item)
  movies : String → Option (List Item)

/-- Embedding of `searchBooks`: `[]` on an empty query and on failure. -/
def searchBooks (host : Catalogs) (query : String) : List Item :=
  let q := trim query
  if q = "" then []
  else
    match host.books q with
    | some items => items
    | none => []

/-- Embedding of `searchMovies`: `[]` on an empty query and on failure.  The key is written
in the code, and a refused key is a failure like any other: the branch returning dummy data
that a comment of the source announces does not exist. -/
def searchMovies (host : Catalogs) (query : String) : List Item :=
  let q := trim query
  if q = "" then []
  else
    match host.movies q with
    | some items => items
    | none => []

/-- One round of the loop of `searchAll`: push `movies[i]`, then `books[i]`, when present. -/
def pushRound {α : Type} (books movies : List α) (result : List α) (i : Nat) : List α :=
  let afterMovie := if i < movies.length then result ++ (movies[i]?).toList else result
  if i < books.length then afterMovie ++ (books[i]?).toList else afterMovie

/-- The loop of `searchAll` followed by `slice(0, 15)`. -/
def combineResults {α : Type} (books movies : List α) : List α :=
  let maxLength := max books.length movies.length
  let result := (List.range maxLength).foldl (pushRound books movies) []
  result.take 15

/-- Embedding of `searchAll`. -/
def searchAll (host : Catalogs) (query : String) : List Item :=
  let q := trim query
  if q = "" then []
  else
    let books := searchBooks host q
    let movies := searchMovies host q
    combineResults books movies

/-! ## Application state and the write flow (`app.js`) -/

/-- The `state` object of `app.js`, with the two form inputs `saveRecord` reads. -/
structure AppState where
  currentView : String
  records : List Record
  collections : List String
  range : String
  selectedItem : Option Item
  rating : ℚ
  editingId : Option String
  apiResults : List Item
  searchType : String
  /-- Value of the `#review-text` input. -/
  reviewText : String
  /-- Value of the `#tags-input` input. -/
  tagsInput : String

/-- The state at start-up over a given storage. -/
def initialState (s : Storage) : AppState :=
  { currentView := "view-home"
    records := loadRecords s
    collections := loadCollections s
    range := "year"
    selectedItem := none
    rating := 0
    editingId := none
    apiResults := []
    searchType := "all"
    reviewText := ""
    tagsInput := "" }

/-- Embedding of `getTodayISO`: the first ten characters of the ISO timestamp. -/
def getTodayISO (env : Env) : String :=
  ⟨env.isoNow.data.take 10⟩

/-- Pieces of a character list between occurrences of `sep`. -/
def splitChars (sep : Char) : List Char → List (List Char)
  | [] => [[]]
  | c :: cs =>
    if c = sep then [] :: splitChars sep cs
    else
      match splitChars sep cs with
      | [] => [[c]]
      | piece :: rest => (c :: piece) :: rest

/-- Model of `String.prototype.split` with a one-character separator. -/
def split (sep : Char) (s : String) : List String :=
  (splitChars sep s.data).map String.mk

/-- The tags read from the input: `split(",").map(t => t.trim()).filter(Boolean)`. -/
def parseTags (input : String) : List String :=
  ((split ',' input).map trim).filter (fun t => decide (t ≠ ""))

/-- JavaScript `thumbnail || null`. -/
def thumbnailOrNull (t : Option (Option String)) : Option String :=
  match t with
  | some (some url) => if url = "" then none else some url
  | _ => none

/-- The keys `title` and `type` of the record `saveRecord` builds that have the value
`undefined`, because the selected item has no such value. -/
def undefinedOf (item : Item) : List Key :=
  (match item.title with
    | none => [Key.title]
    | some _ => []) ++
  (match item.type with
    | none => [Key.type]
    | some _ => [])

/-- The record `saveRecord` builds from the state. -/
def recordToSave (env : Env) (st : AppState) (item : Item) : Record :=
  { id := some (orElseStr st.editingId env.generateId)
    title := item.title
    type := item.type
    year := some (orElseStr item.year "")
    thumbnail := some (thumbnailOrNull item.thumbnail)
    author := some (orElseStr item.author "")
    rating := some st.rating
    date := some (getTodayISO env)
    note := some (trim st.reviewText)
    tags := some (parseTags st.tagsInput)
    createdAt := none
    updatedAt := none
    undefinedKeys := undefinedOf item }

/-- The loop `record.tags.forEach(tag => addCollection(tag))`. -/
def addCollections (s : Storage) (tags : List String) : Storage :=
  tags.foldl (fun acc tag => (addCollection acc tag).2) s

/-- Embedding of `saveRecord`, ending with `showView("view-home")` and its `renderHome`. -/
def saveRecord (env : Env) (st : AppState) (s : Storage) : AppState × Storage :=
  match st.selectedItem with
  | none => (st, s)
  | some item =>
    if st.rating = 0 then (st, s)
    else
      let record := recordToSave env st item
      let s1 := (upsertRecord env s record).2
      let s2 := addCollections s1 (record.tags.getD [])
      ({ st with currentView := "view-home", records := loadRecords s2 }, s2)

/-- Embedding of `showDetail`: remembers the id of the record shown. -/
def showDetail (st : AppState) (record : Record) : AppState :=
  { st with editingId := record.id, currentView := "view-detail" }

/-- Embedding of the click handler of `#btn-edit-record`. -/
def editRecordClick (st : AppState) : AppState :=
  match st.records.find? (fun r => decide (r.id = st.editingId)) with
  | some record =>
    { st with
      selectedItem := some { Item.empty with
        title := record.title
        type := record.type
        year := record.year
        thumbnail := record.thumbnail }
      rating := ratingOrZero record
      currentView := "view-write-rating" }
  | none => st

/-- Embedding of the click handler of a star button: `state.rating = i`. -/
def starClick (st : AppState) (i : Nat) : AppState :=
  { st with rating := (i : ℚ) }

/-- Embedding of `resetWriteFlow`, with the view set by the `showView` that runs it. -/
def resetWriteFlow (st : AppState) : AppState :=
  { st with
    currentView := "view-write-search"
    selectedItem := none
    rating := 0
    editingId := none
    searchType := "all" }

/-- Embedding of the click handler of `#btn-write-next-2`: with a rating above 0 it shows the
review view, whose `renderReview` fills the two inputs from the record being edited. -/
def nextToReview (st : AppState) : AppState :=
  if st.rating > 0 then
    match st.selectedItem with
    | none => resetWriteFlow st
    | some _ =>
      let shown := { st with currentView := "view-write-review" }
      if orElseStr st.editingId "" ≠ "" then
        match st.records.find? (fun r => decide (r.id = st.editingId)) with
        | some existing =>
          { shown with
            reviewText := orElseStr existing.note ""
            tagsInput := join ", " (existing.tags.getD []) }
        | none => shown
      else { shown with reviewText := "", tagsInput := "" }
  else st

/-! ## Keys of a record, for statements that range over every field -/

/-- A JSON value stored under a record key. -/
inductive Value where
  | str (s : String)
  | nullable (s : Option String)
  | num (q : ℚ)
  | strs (l : List String)
  | time (n : Nat)
deriving DecidableEq

/-- Reading a key of a record: `record[key]`, `none` when the key is absent. -/
def Record.get (r : Record) : Key → Option Value
  | .id => r.id.map Value.str
  | .title => r.title.map Value.str
  | .type => r.type.map Value.str
  | .year => r.year.map Value.str
  | .thumbnail => r.thumbnail.map Value.nullable
  | .author => r.author.map Value.str
  | .rating => r.rating.map Value.num
  | .date => r.date.map Value.str
  | .note => r.note.map Value.str
  | .tags => r.tags.map Value.strs
  | .createdAt => r.createdAt.map Value.time
  | .updatedAt => r.updatedAt.map Value.time

/-! ## A concrete host and concrete stores -/

/-- Decimal value of a digit character. -/
def digitValue (c : Char) : Option Nat :=
  if c.isDigit then some (c.toNat - 48) else none

/-- Year and month of a date written `YYYY-MM-DD`, as a host on UTC reads it. -/
def isoYearMonth (text : String) : Option YearMonth :=
  match text.data with
  | [y1, y2, y3, y4, '-', m1, m2, '-', _, _] =>
    match digitValue y1, digitValue y2, digitValue y3, digitValue y4,
        digitValue m1, digitValue m2 with
    | some a, some b, some c, some d, some e, some f =>
      if 1 ≤ 10 * e + f ∧ 10 * e + f ≤ 12 then
        some { year := Int.ofNat (1000 * a + 100 * b + 10 * c + d), month := 10 * e + f - 1 }
      else none
    | _, _, _, _, _, _ => none
  | _ => none

/-- A host in June 2024 on UTC.  Its case mapping of text that is not all ASCII is the
identity; the sample texts are ASCII, which `toLowerCase` folds without the host. -/
def sampleEnv : Env :=
  { now := 20
    nowAgain := 21
    generateId := "generated-id"
    today := { year := 2024, month := 5 }
    parseDate := isoYearMonth
    isoNow := "2024-06-20T00:00:00.000Z"
    lowerCase := fun text => text }

/-- A storage with room to spare, in which the text of a record takes 100 code units and the
text of a name its characters and two quotes. -/
def roomyStorage (records : Option (List Record)) (collections : Option (List String)) :
    Storage :=
  { records := records
    collections := collections
    capacity := 1000000
    recordLength := fun _ => 100
    nameLength := fun name => name.length + 2 }

/-- A storage whose quota is used up: no write that makes it grow is accepted. -/
def fullStorage (records : Option (List Record)) (collections : Option (List String)) :
    Storage :=
  { records := records
    collections := collections
    capacity := 0
    recordLength := fun _ => 100
    nameLength := fun name => name.length + 2 }

/-- Year and month of a date written `YYYY-MM-DD`, as a host west of UTC reads it: the text
is midnight UTC, which is the evening before in local time, so the first day of a month
falls in the month before. -/
def isoYearMonthWest (text : String) : Option YearMonth :=
  match text.data, isoYearMonth text with
  | [_, _, _, _, '-', _, _, '-', '0', '1'], some date =>
    if date.month = 0 then some { year := date.year - 1, month := 11 }
    else some { year := date.year, month := date.month - 1 }
  | _, read => read

/-- A host in June 2024 whose local time is behind UTC. -/
def westEnv : Env :=
  { now := 20
    nowAgain := 21
    generateId := "generated-id"
    today := { year := 2024, month := 5 }
    parseDate := isoYearMonthWest
    isoNow := "2024-06-20T05:00:00.000Z"
    lowerCase := fun text => text }

/-- A stored record with id `a`, last updated at time 1. -/
def oldA : Record :=
  { Record.empty with id := some "a", title := some "old title", updatedAt := some 1 }

/-- A store holding only `oldA` whose quota is used up. -/
def storeFull : Storage :=
  fullStorage (some [oldA]) none

/-- A store holding only `oldA`. -/
def storeA : Storage :=
  roomyStorage (some [oldA]) none

/-- An update of record `a` that sets the title only. -/
def patchA : Record :=
  { Record.empty with id := some "a", title := some "x" }

/-- An update of record `a` that carries its own `updatedAt`. -/
def patchB : Record :=
  { Record.empty with id := some "a", updatedAt := some 5 }

/-- A new record `n` that carries its own `createdAt`. -/
def patchC : Record :=
  { Record.empty with id := some "n", createdAt := some 5 }

/-- A stored record that is neither a book nor a movie. -/
def gameRecord : Record :=
  { Record.empty with
    id := some "g"
    title := some "chess"
    type := some "game"
    rating := some 3 }

/-- A store holding only `gameRecord`. -/
def storeGame : Storage :=
  roomyStorage (some [gameRecord]) none

/-- The book of the worked example: rated 4, dated 2024-06-01. -/
def bookA : Record :=
  { Record.empty with
    id := some "a"
    type := some "book"
    rating := some 4
    date := some "2024-06-01" }

/-- The movie of the worked example: rated 5, dated 2024-06-15. -/
def movieB : Record :=
  { Record.empty with
    id := some "b"
    type := some "movie"
    rating := some 5
    date := some "2024-06-15" }

/-- The store of the worked example. -/
def storeJune : Storage :=
  roomyStorage (some [bookA, movieB]) none

/-- A book rated 3 in June 2024. -/
def ratedThree : Record :=
  { Record.empty with
    id := some "x"
    type := some "book"
    rating := some 3
    date := some "2024-06-10" }

/-- A book of June 2024 stored without a `rating` key. -/
def unrated : Record :=
  { Record.empty with
    id := some "y"
    type := some "book"
    date := some "2024-06-10" }

/-- A movie rated 5 in June 2024. -/
def ratedFive : Record :=
  { Record.empty with
    id := some "z"
    type := some "movie"
    rating := some 5
    date := some "2024-06-10" }

/-- A store in which a record without rating sits between a 3 and a 5. -/
def storeUnrated : Storage :=
  roomyStorage (some [ratedThree, unrated, ratedFive]) none

/-- A record titled `cat`. -/
def catRecord : Record :=
  { Record.empty with id := some "c", title := some "cat", type := some "book" }

/-- A store holding only `catRecord`. -/
def storeCat : Storage :=
  roomyStorage (some [catRecord]) none

/-- A record tagged `sci` and `fi`. -/
def taggedRecord : Record :=
  { Record.empty with id := some "t", title := some "dune", tags := some ["sci", "fi"] }

/-- A store holding only `taggedRecord`. -/
def storeTagged : Storage :=
  roomyStorage (some [taggedRecord]) none

/-- An import file whose `records` key holds the text `abc` and that has no other key. -/
def textImport : ImportDoc :=
  { records := .text "abc", collections := .absent, exportedAt := .absent }

/-- A store holding one collection name whose quota is used up. -/
def shelvesFull : Storage :=
  fullStorage none (some ["classics"])

/-- A store holding two collection names. -/
def storeShelves : Storage :=
  roomyStorage none (some ["classics", "sci-fi"])

/-- Catalogs answering every query with two books and one movie. -/
def sampleCatalogs : Catalogs :=
  { books := fun _ =>
      some [{ Item.empty with id := some "b1", type := some "book" },
            { Item.empty with id := some "b2", type := some "book" }]
    movies := fun _ => some [{ Item.empty with id := some "m1", type := some "movie" }] }

/-- A stored book with an author, created at time 1. -/
def authoredBook : Record :=
  { id := some "a"
    title := some "Dune"
    type := some "book"
    year := some "1965"
    thumbnail := some none
    author := some "Frank Herbert"
    rating := some 4
    date := some "2024-05-01"
    note := some "great"
    tags := some ["sci-fi"]
    createdAt := some 1
    updatedAt := some 1
    undefinedKeys := [] }

/-- A store holding only `authoredBook`, with its tag as a collection. -/
def storeAuthored : Storage :=
  roomyStorage (some [authoredBook]) (some ["sci-fi"])

/-- The state reached from start-up over `storeAuthored` by opening `authoredBook`, pressing
the edit button, choosing five stars and moving on to the review step. -/
def editingAuthored : AppState :=
  nextToReview (starClick (editRecordClick (showDetail (initialState storeAuthored) authoredBook)) 5)

/-- A state of the write flow with a selected book and three stars. -/
def writingState : AppState :=
  { initialState storeA with
    selectedItem := some { Item.empty with id := some "b1", title := some "Emma", type := some "book" }
    rating := 3
    tagsInput := "classics, novel" }

/-! ## Specification-side notions -/

/-- Whether `range` selects the record: same calendar year for `year`, same year and month for
`month`, no filter otherwise. -/
def selects (env : Env) (range : String) (r : Record) : Bool :=
  if range = "year" then
    match dateOf env r with
    | some d => decide (d.year = env.today.year)
    | none => false
  else if range = "month" then
    match dateOf env r with
    | some d => decide (d.year = env.today.year ∧ d.month = env.today.month)
    | none => false
  else true

/-- Whether the write of `upsertRecord(record)` succeeds: what `saveRecords` returns in it. -/
def upsertSaves (env : Env) (s : Storage) (record : Record) : Bool :=
  (saveRecords s (upsertList env (loadRecords s) record)).2

/-- Whether the write of `addCollection(name)` for a name not yet stored succeeds: what
`saveCollections` returns in it. -/
def addCollectionSaves (s : Storage) (name : String) : Bool :=
  (saveCollections s (loadCollections s ++ [name])).2

/-- Whether the write of the records by `importFromJSON` succeeds. -/
def importSavesRecords (s : Storage) (items : List Record) : Bool :=
  (saveRecords s items).2

/-- Whether the write of the collections by `importFromJSON`, after that of the records,
succeeds. -/
def importSavesCollections (s : Storage) (items : List Record) (names : List String) : Bool :=
  (saveCollections (saveRecords s items).1 names).2

/-- Arithmetic mean of a list of numbers, 0 for the empty list. -/
def mean (xs : List ℚ) : ℚ :=
  if xs = [] then 0 else xs.sum / xs.length

/-- The text `pat` occurs in `text` as a contiguous run of characters. -/
def Occurs (pat text : String) : Prop :=
  ∃ pre post : List Char, text.data = pre ++ pat.data ++ post

/-- The match of a record as C7 words it: the query, compared case-insensitively, is a
substring of the title, of the note, or of a single tag. -/
def matchesSingleField (env : Env) (query : String) (r : Record) : Bool :=
  includes (toLowerCase env (r.title.getD "")) (toLowerCase env query) ||
  includes (toLowerCase env (r.note.getD "")) (toLowerCase env query) ||
  (r.tags.getD []).any (fun tag => includes (toLowerCase env tag) (toLowerCase env query))

/-- The alternation `ms[0], bs[0], ms[1], bs[1], ...`; when one list is exhausted the rest of
the other follows. -/
def interleave {α : Type} : List α → List α → List α
  | [], bs => bs
  | m :: ms, [] => m :: ms
  | m :: ms, b :: bs => m :: b :: interleave ms bs

/-! ## Lemmas on the storage quota -/

theorem arrayLength_sublist {l₁ l₂ : List Nat} (h : l₁.Sublist l₂) :
    arrayLength l₁ ≤ arrayLength l₂ := by
  have hsum : l₁.sum ≤ l₂.sum := h.sum_le_sum (fun a _ => Nat.zero_le a)
  have hlen : l₁.length ≤ l₂.length := h.length_le
  unfold arrayLength
  omega

theorem saveRecords_saved (s : Storage) (records : List Record)
    (h : (saveRecords s records).2 = true) :
    (saveRecords s records).1 = { s with records := some records } := by
  unfold saveRecords at h ⊢
  split
  · rfl
  · rename_i hno
    simp [hno] at h

theorem saveRecords_failed (s : Storage) (records : List Record)
    (h : (saveRecords s records).2 = false) : (saveRecords s records).1 = s := by
  unfold saveRecords at h ⊢
  split
  · rename_i hyes
    simp [hyes] at h
  · rfl

theorem saveCollections_saved (s : Storage) (names : List String)
    (h : (saveCollections s names).2 = true) :
    (saveCollections s names).1 = { s with collections := some names } := by
  unfold saveCollections at h ⊢
  split
  · rfl
  · rename_i hno
    simp [hno] at h

theorem saveCollections_failed (s : Storage) (names : List String)
    (h : (saveCollections s names).2 = false) : (saveCollections s names).1 = s := by
  unfold saveCollections at h ⊢
  split
  · rename_i hyes
    simp [hyes] at h
  · rfl

theorem loadRecords_saveRecords (s : Storage) (records : List Record) :
    (saveRecords s records).2 = true ∧ loadRecords (saveRecords s records).1 = records ∨
    (saveRecords s records).2 = false ∧ (saveRecords s records).1 = s := by
  cases h : (saveRecords s records).2 with
  | true => exact Or.inl ⟨rfl, by rw [saveRecords_saved s records h]; rfl⟩
  | false => exact Or.inr ⟨rfl, saveRecords_failed s records h⟩

theorem loadCollections_saveCollections (s : Storage) (names : List String) :
    (saveCollections s names).2 = true ∧ loadCollections (saveCollections s names).1 = names ∨
    (saveCollections s names).2 = false ∧ (saveCollections s names).1 = s := by
  cases h : (saveCollections s names).2 with
  | true => exact Or.inl ⟨rfl, by rw [saveCollections_saved s names h]; rfl⟩
  | false => exact Or.inr ⟨rfl, saveCollections_failed s names h⟩

theorem loadCollections_saveRecords (s : Storage) (records : List Record) :
    loadCollections (saveRecords s records).1 = loadCollections s := by
  rcases loadRecords_saveRecords s records with ⟨h, _⟩ | ⟨_, h⟩
  · rw [saveRecords_saved s records h]
    rfl
  · rw [h]

theorem loadRecords_saveCollections (s : Storage) (names : List String) :
    loadRecords (saveCollections s names).1 = loadRecords s := by
  rcases loadCollections_saveCollections s names with ⟨h, _⟩ | ⟨_, h⟩
  · rw [saveCollections_saved s names h]
    rfl
  · rw [h]

/-- A write of records that is a sublist of the stored array is always accepted. -/
theorem saveRecords_sublist (s : Storage) (stored records : List Record)
    (hs : s.records = some stored) (h : records.Sublist stored) :
    (saveRecords s records).2 = true := by
  have hle : arrayLength (records.map s.recordLength) ≤ arrayLength (stored.map s.recordLength) :=
    arrayLength_sublist (h.map _)
  have hacc : s.accepts (arrayLength (records.map s.recordLength) + s.collectionsUse) = true := by
    simp only [Storage.accepts, Storage.recordsUse, hs, Bool.or_eq_true, decide_eq_true_eq]
    left
    omega
  simp [saveRecords, hacc]

/-! ## Lemmas on `findIndex` and `upsertList` -/

theorem findIndex_eq_none {α : Type} (p : α → Bool) (l : List α) :
    findIndex p l = none ↔ ∀ x ∈ l, p x = false := by
  induction l with
  | nil => simp [findIndex]
  | cons x xs ih =>
    by_cases h : p x = true
    · simp [findIndex, h]
    · simp only [Bool.not_eq_true] at h
      simp [findIndex, h, ih]

theorem findIndex_eq_some {α : Type} (p : α → Bool) (l : List α) (i : Nat)
    (h : findIndex p l = some i) :
    ∃ pre x post, l = pre ++ x :: post ∧ pre.length = i ∧ p x = true ∧
      ∀ y ∈ pre, p y = false := by
  induction l generalizing i with
  | nil => simp [findIndex] at h
  | cons a as ih =>
    by_cases ha : p a = true
    · simp [findIndex, ha] at h
      exact ⟨[], a, as, by simp, by simpa using h, ha, by simp⟩
    · simp only [Bool.not_eq_true] at ha
      simp only [findIndex, ha, Bool.false_eq_true, if_false, Option.map_eq_some'] at h
      obtain ⟨j, hj, rfl⟩ := h
      obtain ⟨pre, x, post, hl, hlen, hx, hpre⟩ := ih j hj
      refine ⟨a :: pre, x, post, by simp [hl], by simp [hlen], hx, ?_⟩
      intro y hy
      rcases List.mem_cons.mp hy with rfl | hy
      · exact ha
      · exact hpre y hy

/-- The two shapes of the array written by `upsertRecord`. -/
theorem upsertList_cases (env : Env) (records : List Record) (r : Record) :
    ((∀ x ∈ records, x.id ≠ r.id) ∧ upsertList env records r = insertedRecord env r :: records) ∨
    (∃ pre x post, records = pre ++ x :: post ∧ x.id = r.id ∧ (∀ y ∈ pre, y.id ≠ r.id) ∧
      upsertList env records r = pre ++ mergedRecord env x r :: post) := by
  unfold upsertList
  cases h : findIndex (fun x => decide (x.id = r.id)) records with
  | none =>
    left
    rw [findIndex_eq_none] at h
    exact ⟨fun x hx => by simpa using h x hx, rfl⟩
  | some i =>
    right
    obtain ⟨pre, x, post, hl, hlen, hx, hpre⟩ := findIndex_eq_some _ _ _ h
    refine ⟨pre, x, post, hl, by simpa using hx, fun y hy => by simpa using hpre y hy, ?_⟩
    subst hl
    subst hlen
    have hget : (pre ++ x :: post).getD pre.length Record.empty = x := by
      rw [List.getD_append_right _ _ _ _ (Nat.le_refl _)]
      simp
    show (pre ++ x :: post).set pre.length
        (mergedRecord env ((pre ++ x :: post).getD pre.length Record.empty) r) = _
    rw [hget]
    simp


theorem loadRecords_upsertRecord (env : Env) (s : Storage) (r : Record) :
    upsertSaves env s r = true ∧
      loadRecords (upsertRecord env s r).2 = upsertList env (loadRecords s) r ∨
    upsertSaves env s r = false ∧ (upsertRecord env s r).2 = s :=
  loadRecords_saveRecords s (upsertList env (loadRecords s) r)

theorem loadRecords_upsertRecord_saved (env : Env) (s : Storage) (r : Record)
    (h : upsertSaves env s r = true) :
    loadRecords (upsertRecord env s r).2 = upsertList env (loadRecords s) r := by
  rcases loadRecords_upsertRecord env s r with ⟨_, h2⟩ | ⟨h1, _⟩
  · exact h2
  · rw [h] at h1
    exact absurd h1 (by decide)

theorem orElseStr_some_ne {v : String} (b : String) (hne : v ≠ "") :
    orElseStr (some v) b = v := by
  simp [orElseStr, hne]

theorem filter_id_eq_nil (l : List Record) (i : Option String) (h : ∀ y ∈ l, y.id ≠ i) :
    l.filter (fun x => decide (x.id = i)) = [] := by
  rw [List.filter_eq_nil_iff]
  intro y hy
  simpa using h y hy

theorem spreadKey_map {α β : Type} (f : α → β) (key : Key) (new : Record)
    (a b : Option α) :
    (spreadKey key new a b).map f = spreadKey key new (a.map f) (b.map f) := by
  cases a with
  | none =>
    simp only [spreadKey, Option.map_none']
    split <;> rfl
  | some v => rfl

theorem spread_get (old new : Record) (k : Key) :
    (spread old new).get k = spreadKey k new (new.get k) (old.get k) := by
  cases k <;> simp only [Record.get, spread, spreadKey_map]

theorem mergedRecord_get_eq (env : Env) (old r : Record) (k : Key) (hk : k ≠ Key.updatedAt) :
    (mergedRecord env old r).get k = spreadKey k r (r.get k) (old.get k) := by
  rw [← spread_get]
  cases k <;> first
    | exact absurd rfl hk
    | rfl

/-- A key that `r` does not have with the value `undefined` is merged as in the spread: the
value of `r` when it has one, the stored value otherwise. -/
theorem mergedRecord_get (env : Env) (old r : Record) (k : Key) (hk : k ≠ Key.updatedAt)
    (hu : ¬ k ∈ r.undefinedKeys) :
    (mergedRecord env old r).get k = (r.get k <|> old.get k) := by
  rw [mergedRecord_get_eq env old r k hk]
  cases h : r.get k with
  | none => simp [spreadKey, hu]
  | some v => rfl

/-- A key that `r` has with the value `undefined` is erased by the merge. -/
theorem mergedRecord_get_undefined (env : Env) (old r : Record) (k : Key)
    (hk : k ≠ Key.updatedAt) (hu : k ∈ r.undefinedKeys) (hr : r.get k = none) :
    (mergedRecord env old r).get k = none := by
  rw [mergedRecord_get_eq env old r k hk, hr]
  simp [spreadKey, hu]

theorem mergedRecord_get_of_some (env : Env) (old r : Record) (k : Key)
    (hk : k ≠ Key.updatedAt) (hsome : (r.get k).isSome = true) :
    (mergedRecord env old r).get k = r.get k := by
  rw [mergedRecord_get_eq env old r k hk]
  cases h : r.get k with
  | none => simp [h] at hsome
  | some v => rfl

theorem insertedRecord_get (env : Env) (r : Record) (k : Key)
    (h1 : k ≠ Key.id) (h2 : k ≠ Key.createdAt) (h3 : k ≠ Key.updatedAt) :
    (insertedRecord env r).get k = r.get k := by
  cases k <;> first
    | exact absurd rfl h1
    | exact absurd rfl h2
    | exact absurd rfl h3
    | rfl

theorem mergedRecord_id_of_some (env : Env) (x r : Record) (v : String) (h : r.id = some v) :
    (mergedRecord env x r).id = some v := by
  simp [mergedRecord, spread, spreadKey, h]

/-- The id-uniqueness invariant of `upsertRecord` on the array it writes. -/
theorem upsertList_unique (env : Env) (records : List Record) (r : Record) (v : String)
    (hdistinct : (records.map Record.id).Nodup) (hid : r.id = some v) (hne : v ≠ "") :
    ((upsertList env records r).map Record.id).Nodup ∧
    ∃ stored, (upsertList env records r).filter (fun x => decide (x.id = some v)) = [stored] ∧
      stored.id = some v ∧
      (∀ k, k ≠ Key.createdAt → k ≠ Key.updatedAt → (r.get k).isSome → stored.get k = r.get k) ∧
      (∀ old ∈ records, old.id = some v →
        ∀ k, k ≠ Key.updatedAt → ¬ k ∈ r.undefinedKeys →
          stored.get k = (r.get k <|> old.get k)) ∧
      ((∀ old ∈ records, old.id ≠ some v) →
        stored.createdAt = some env.now ∧ stored.updatedAt = some env.nowAgain) ∧
      ((∃ old ∈ records, old.id = some v) → stored.updatedAt = some env.now) := by
  rcases upsertList_cases env records r with ⟨hno, hlist⟩ | ⟨pre, x, post, hrec, hx, hpre, hlist⟩
  · rw [hid] at hno
    have hins : (insertedRecord env r).id = some v := by
      simp [insertedRecord, hid, orElseStr_some_ne _ hne]
    refine ⟨?_, insertedRecord env r, ?_, hins, ?_, ?_, ?_, ?_⟩
    · rw [hlist, List.map_cons, List.nodup_cons]
      refine ⟨?_, hdistinct⟩
      rw [hins]
      intro hmem
      obtain ⟨y, hy, hyid⟩ := List.mem_map.mp hmem
      exact hno y hy hyid
    · rw [hlist, List.filter_cons, filter_id_eq_nil _ _ hno]
      simp [hins]
    · intro k hc hu hsome
      by_cases hk : k = Key.id
      · subst hk
        simp [Record.get, hins, hid]
      · exact insertedRecord_get env r k hk hc hu
    · intro old hold hoid
      exact absurd hoid (hno old hold)
    · intro _
      exact ⟨rfl, rfl⟩
    · rintro ⟨old, hold, hoid⟩
      exact absurd hoid (hno old hold)
  · rw [hid] at hx hpre
    subst hrec
    have hm : (mergedRecord env x r).id = some v := mergedRecord_id_of_some env x r v hid
    have hnd := hdistinct
    rw [List.map_append, List.map_cons, List.nodup_append] at hnd
    obtain ⟨hndpre, hndx, hdisj⟩ := hnd
    rw [List.nodup_cons] at hndx
    have hpost : ∀ y ∈ post, y.id ≠ some v := by
      intro y hy hyid
      apply hndx.1
      rw [hx, ← hyid]
      exact List.mem_map_of_mem _ hy
    have hxuniq : ∀ old ∈ pre ++ x :: post, old.id = some v → old = x := by
      intro old hold hoid
      rcases List.mem_append.mp hold with h | h
      · exact absurd hoid (hpre old h)
      · rcases List.mem_cons.mp h with h | h
        · exact h
        · exact absurd hoid (hpost old h)
    refine ⟨?_, mergedRecord env x r, ?_, hm, ?_, ?_, ?_, ?_⟩
    · rw [hlist, List.map_append, List.map_cons, hm, ← hx, ← List.map_cons, ← List.map_append]
      exact hdistinct
    · rw [hlist, List.filter_append, List.filter_cons, filter_id_eq_nil _ _ hpre,
        filter_id_eq_nil _ _ hpost]
      simp [hm]
    · intro k _ hu hsome
      exact mergedRecord_get_of_some env x r k hu hsome
    · intro old hold hoid k hu hundef
      rw [hxuniq old hold hoid]
      exact mergedRecord_get env x r k hu hundef
    · intro hnone
      exact absurd hx (hnone x (by simp))
    · intro _
      rfl

/-! ## C1: upsert keeps ids unique -/

/-- C1 (as amended): in a store with pairwise distinct ids, upserting a record `r` with a
non-empty id, the save succeeding, leaves exactly one record with that id; it carries every
field of `r` and keeps the fields of the previously stored record that `r` does not set,
except that `updatedAt` is set to the current time, and so is `createdAt` when the id was not
stored before; the ids stay pairwise distinct, and a second upsert with the same id, whether
its save succeeds or not, leaves one record with it. -/
theorem upsertRecord_exactly_once (env env2 : Env) (s : Storage) (r r2 : Record) (v : String)
    (hdistinct : ((loadRecords s).map Record.id).Nodup)
    (hid : r.id = some v) (hne : v ≠ "") (hid2 : r2.id = some v)
    (hsaved : upsertSaves env s r = true) :
    (∃ stored,
      (loadRecords (upsertRecord env s r).2).filter (fun x => decide (x.id = some v)) = [stored] ∧
      (∀ k, k ≠ Key.createdAt → k ≠ Key.updatedAt → (r.get k).isSome →
        stored.get k = r.get k) ∧
      (∀ old ∈ loadRecords s, old.id = some v →
        ∀ k, k ≠ Key.updatedAt → ¬ k ∈ r.undefinedKeys →
          stored.get k = (r.get k <|> old.get k)) ∧
      ((∀ old ∈ loadRecords s, old.id ≠ some v) →
        stored.createdAt = some env.now ∧ stored.updatedAt = some env.nowAgain) ∧
      ((∃ old ∈ loadRecords s, old.id = some v) → stored.updatedAt = some env.now)) ∧
    ((loadRecords (upsertRecord env s r).2).map Record.id).Nodup ∧
    ((loadRecords (upsertRecord env2 (upsertRecord env s r).2 r2).2).filter
      (fun x => decide (x.id = some v))).length = 1 := by
  obtain ⟨hnd, stored, hfilter, _, hcarry, hkeep, hnew, hupd⟩ :=
    upsertList_unique env (loadRecords s) r v hdistinct hid hne
  rw [← loadRecords_upsertRecord_saved env s r hsaved] at hnd hfilter
  refine ⟨⟨stored, hfilter, hcarry, hkeep, hnew, hupd⟩, hnd, ?_⟩
  rcases loadRecords_upsertRecord env2 (upsertRecord env s r).2 r2 with ⟨_, h2⟩ | ⟨_, h2⟩
  · obtain ⟨_, stored2, hfilter2, _⟩ :=
      upsertList_unique env2 (loadRecords (upsertRecord env s r).2) r2 v hnd hid2 hne
    rw [h2, hfilter2]
    rfl
  · rw [h2, hfilter]
    rfl

/-- Witness for C1: the update `patchA` of the one-record store `storeA`. -/
theorem upsertRecord_exactly_once_witness :
    ((loadRecords storeA).map Record.id).Nodup ∧ patchA.id = some "a" ∧ "a" ≠ "" ∧
    upsertSaves sampleEnv storeA patchA = true ∧
    ((loadRecords (upsertRecord sampleEnv (upsertRecord sampleEnv storeA patchA).2 patchA).2).filter
      (fun x => decide (x.id = some "a"))).length = 1 :=
  ⟨by decide, rfl, by decide, by decide,
    (upsertRecord_exactly_once sampleEnv sampleEnv storeA patchA patchA "a"
      (by decide) rfl (by decide) rfl (by decide)).2.2⟩

/-- C1 (as stated) fails, the saves succeeding: upserting `patchA`, which does not set
`updatedAt`, over `oldA` replaces the stored `updatedAt` 1 by the current time 20; upserting
`patchB`, which sets `updatedAt` to 5, stores 20 instead; and inserting `patchC`, which sets
`createdAt` to 5, stores 20 instead. -/
theorem upsertRecord_overwrites_updatedAt :
    ((loadRecords storeA).map Record.id).Nodup ∧
    upsertSaves sampleEnv storeA patchA = true ∧
    upsertSaves sampleEnv storeA patchB = true ∧
    upsertSaves sampleEnv storeA patchC = true ∧
    loadRecords (upsertRecord sampleEnv storeA patchA).2 =
      [{ oldA with title := some "x", updatedAt := some 20 }] ∧
    ¬ (∀ stored ∈ loadRecords (upsertRecord sampleEnv storeA patchA).2,
        ∀ old ∈ loadRecords storeA, ∀ k, patchA.get k = none → stored.get k = old.get k) ∧
    ¬ (∀ stored ∈ loadRecords (upsertRecord sampleEnv storeA patchB).2,
        ∀ k, (patchB.get k).isSome → stored.get k = patchB.get k) ∧
    ¬ (∀ stored ∈ loadRecords (upsertRecord sampleEnv storeA patchC).2,
        stored.id = patchC.id → ∀ k, (patchC.get k).isSome → stored.get k = patchC.get k) := by
  refine ⟨by decide, by decide, by decide, by decide, by decide, ?_, ?_, ?_⟩
  · intro h
    have := h _ (List.mem_singleton.mpr rfl) oldA (List.mem_singleton.mpr rfl) Key.updatedAt rfl
    revert this
    decide
  · intro h
    have := h _ (List.mem_singleton.mpr rfl) Key.updatedAt rfl
    revert this
    decide
  · intro h
    have := h _ (List.mem_cons_self _ _) rfl Key.createdAt rfl
    revert this
    decide

/-! ## C2: delete -/

theorem loadRecords_deleteRecord (s : Storage) (id : Option String) :
    loadRecords (deleteRecord s id) =
      (loadRecords s).filter (fun r => decide (r.id ≠ id)) := by
  unfold deleteRecord
  cases hs : s.records with
  | none =>
    have hload : loadRecords s = [] := by simp [loadRecords, hs]
    rw [hload]
    rcases loadRecords_saveRecords s (List.filter (fun r => decide (r.id ≠ id)) []) with
      ⟨_, h⟩ | ⟨_, h⟩
    · rw [h]
    · rw [h, hload]
      rfl
  | some stored =>
    have hload : loadRecords s = stored := by simp [loadRecords, hs]
    rw [hload]
    have hsaved := saveRecords_sublist s stored _ hs
      (List.filter_sublist (p := fun r => decide (r.id ≠ id)) stored)
    rw [saveRecords_saved s _ hsaved]
    rfl

/-- C2: after `deleteRecord(id)` no stored record has that id, the remaining records are the
other records in their original order (a sublist holding each of them as often as before), and
when no stored record has that id the stored sequence is unchanged. -/
theorem deleteRecord_removes_id (s : Storage) (id : Option String) :
    (∀ r ∈ loadRecords (deleteRecord s id), r.id ≠ id) ∧
    (loadRecords (deleteRecord s id)).Sublist (loadRecords s) ∧
    (∀ r, r.id ≠ id → (loadRecords (deleteRecord s id)).count r = (loadRecords s).count r) ∧
    ((∀ r ∈ loadRecords s, r.id ≠ id) → loadRecords (deleteRecord s id) = loadRecords s) := by
  rw [loadRecords_deleteRecord]
  refine ⟨?_, List.filter_sublist _, ?_, ?_⟩
  · intro r hr
    simpa using (List.mem_filter.mp hr).2
  · intro r hr
    rw [List.count_filter]
    simpa using hr
  · intro h
    rw [List.filter_eq_self]
    intro r hr
    simpa using h r hr

/-! ## C3: where upsert writes -/

theorem getElem?_append_cons_length {α : Type} (pre : List α) (x : α) (post : List α) :
    (pre ++ x :: post)[pre.length]? = some x := by
  induction pre with
  | nil => simp
  | cons a as ih => simpa using ih

theorem mergedRecord_id (env : Env) (x r : Record) (h : x.id = r.id) :
    (mergedRecord env x r).id = r.id := by
  simp only [mergedRecord, spread, spreadKey, h]
  cases r.id with
  | none => simp
  | some v => rfl

/-- C3 (as amended): when no stored record has the id of `r` and the save succeeds,
`upsertRecord(r)` puts the new record in front of the unchanged old sequence (the new record
has the fields of `r`, fresh timestamps, and the generated id when `r` has no id); when a
stored record has that id, then, whether the save succeeds or not, the length is kept, the
place of the first such record holds a record with the same id, and every other position is
unchanged. -/
theorem upsertRecord_frame (env : Env) (s : Storage) (r : Record) :
    ((∀ x ∈ loadRecords s, x.id ≠ r.id) → upsertSaves env s r = true →
      ∃ new, loadRecords (upsertRecord env s r).2 = new :: loadRecords s ∧
        (loadRecords (upsertRecord env s r).2).length = (loadRecords s).length + 1 ∧
        (∀ k, k ≠ Key.id → k ≠ Key.createdAt → k ≠ Key.updatedAt → new.get k = r.get k) ∧
        new.createdAt = some env.now ∧ new.updatedAt = some env.nowAgain ∧
        (∀ v, r.id = some v → v ≠ "" → new.id = some v) ∧
        (r.id = none ∨ r.id = some "" → new.id = some env.generateId)) ∧
    ((∃ x ∈ loadRecords s, x.id = r.id) →
      (loadRecords (upsertRecord env s r).2).length = (loadRecords s).length ∧
      ∃ i, i < (loadRecords s).length ∧
        ((loadRecords s)[i]?).map Record.id = some r.id ∧
        (∀ j, j < i → ((loadRecords s)[j]?).map Record.id ≠ some r.id) ∧
        ((loadRecords (upsertRecord env s r).2)[i]?).map Record.id = some r.id ∧
        ∀ j, j ≠ i → (loadRecords (upsertRecord env s r).2)[j]? = (loadRecords s)[j]?) := by
  rcases upsertList_cases env (loadRecords s) r with ⟨hno, hlist⟩ | ⟨pre, x, post, hrec, hx, hpre, hlist⟩
  · refine ⟨fun _ hsaved => ⟨insertedRecord env r, ?_, ?_, ?_, rfl, rfl, ?_, ?_⟩, ?_⟩
    · rw [loadRecords_upsertRecord_saved env s r hsaved, hlist]
    · rw [loadRecords_upsertRecord_saved env s r hsaved, hlist]
      simp
    · intro k h1 h2 h3
      exact insertedRecord_get env r k h1 h2 h3
    · intro v hv hne
      simp [insertedRecord, hv, orElseStr_some_ne _ hne]
    · rintro (h | h) <;> simp [insertedRecord, h, orElseStr]
    · rintro ⟨y, hy, hyid⟩
      exact absurd hyid (hno y hy)
  · refine ⟨fun hno => absurd hx (hno x (by simp [hrec])), fun _ => ?_⟩
    have hfirst : ∀ j, j < pre.length → ((pre ++ x :: post)[j]?).map Record.id ≠ some r.id := by
      intro j hj
      rw [List.getElem?_append_left hj]
      have hmem : pre[j] ∈ pre := List.getElem_mem hj
      simpa [List.getElem?_eq_getElem hj] using hpre _ hmem
    rcases loadRecords_upsertRecord env s r with ⟨_, hafter⟩ | ⟨_, hafter⟩
    · rw [hafter, hlist, hrec]
      refine ⟨by simp, pre.length, by simp,
        by rw [getElem?_append_cons_length]; simp [hx], hfirst, ?_, ?_⟩
      · rw [getElem?_append_cons_length]
        simp [mergedRecord_id env x r hx]
      · intro j hj
        have hset : pre ++ mergedRecord env x r :: post =
            (pre ++ x :: post).set pre.length (mergedRecord env x r) := by simp
        rw [hset, List.getElem?_set_ne (Ne.symm hj)]
    · rw [hafter, hrec]
      exact ⟨rfl, pre.length, by simp,
        by rw [getElem?_append_cons_length]; simp [hx], hfirst,
        by rw [getElem?_append_cons_length]; simp [hx], fun _ _ => rfl⟩

/-- Witness for C3: inserting `patchC` into the roomy store `storeA` puts a record with id `n`
in front of `oldA`. -/
theorem upsertRecord_frame_witness :
    (∀ x ∈ loadRecords storeA, x.id ≠ patchC.id) ∧ upsertSaves sampleEnv storeA patchC = true ∧
    ∃ new, loadRecords (upsertRecord sampleEnv storeA patchC).2 = new :: loadRecords storeA ∧
      (loadRecords (upsertRecord sampleEnv storeA patchC).2).length =
        (loadRecords storeA).length + 1 ∧
      (∀ k, k ≠ Key.id → k ≠ Key.createdAt → k ≠ Key.updatedAt → new.get k = patchC.get k) ∧
      new.createdAt = some sampleEnv.now ∧ new.updatedAt = some sampleEnv.nowAgain ∧
      (∀ v, patchC.id = some v → v ≠ "" → new.id = some v) ∧
      (patchC.id = none ∨ patchC.id = some "" → new.id = some sampleEnv.generateId) :=
  ⟨by decide, by decide,
    (upsertRecord_frame sampleEnv storeA patchC).1 (by decide) (by decide)⟩

/-- C3 (as stated) fails: in `storeFull`, whose quota is used up, no stored record has the id
of `patchC`, yet after `upsertRecord(patchC)` the store still holds `oldA` alone: the write was
refused, and no new record stands first. -/
theorem upsertRecord_refused_when_full :
    (∀ x ∈ loadRecords storeFull, x.id ≠ patchC.id) ∧
    upsertSaves sampleEnv storeFull patchC = false ∧
    loadRecords (upsertRecord sampleEnv storeFull patchC).2 = [oldA] ∧
    ¬ (∃ new, loadRecords (upsertRecord sampleEnv storeFull patchC).2 =
        new :: loadRecords storeFull) := by
  refine ⟨by decide, by decide, by decide, ?_⟩
  rintro ⟨new, h⟩
  have hlen := congrArg List.length h
  have hleft : (loadRecords (upsertRecord sampleEnv storeFull patchC).2).length = 1 := by decide
  have hright : (loadRecords storeFull).length = 1 := by decide
  rw [List.length_cons, hleft, hright] at hlen
  exact absurd hlen (by decide)

/-! ## C4 and C5: statistics -/

theorem statsKeeps_all (env : Env) (l : List Record) :
    l.filter (statsKeeps env "all") = l := by
  rw [List.filter_eq_self]
  intro r _
  simp [statsKeeps]

theorem length_three_way {α : Type} (p q o : α → Bool) (l : List α)
    (h : ∀ a ∈ l, (p a = true ∧ q a = false ∧ o a = false) ∨
      (p a = false ∧ q a = true ∧ o a = false) ∨ (p a = false ∧ q a = false ∧ o a = true)) :
    l.length = (l.filter p).length + (l.filter q).length + (l.filter o).length := by
  induction l with
  | nil => rfl
  | cons a as ih =>
    have ih2 := ih (fun b hb => h b (List.mem_cons_of_mem _ hb))
    rcases h a (List.mem_cons_self _ _) with ⟨hp, hq, ho⟩ | ⟨hp, hq, ho⟩ | ⟨hp, hq, ho⟩ <;>
      simp only [List.filter_cons, hp, hq, ho, if_true, Bool.false_eq_true, if_false,
        List.length_cons] <;> omega

theorem length_by_type (l : List Record) :
    l.length =
      (l.filter (fun r => decide (r.type = some "book"))).length +
      (l.filter (fun r => decide (r.type = some "movie"))).length +
      (l.filter (fun r => decide (r.type ≠ some "book" ∧ r.type ≠ some "movie"))).length := by
  apply length_three_way
  intro a _
  by_cases hb : a.type = some "book"
  · have hm : a.type ≠ some "movie" := by rw [hb]; decide
    left
    simp [hb]
  · by_cases hm : a.type = some "movie"
    · right; left
      simp [hm]
    · right; right
      simp [hb, hm]

/-- C4 (as amended): for `getStats('all')`, `total` is `books + movies` plus the number of
stored records whose type is neither `book` nor `movie`; so `total == books + movies` when
every stored record is a book or a movie. -/
theorem getStats_all_total (env : Env) (s : Storage) :
    (getStats env s "all").total =
      (getStats env s "all").books + (getStats env s "all").movies +
      ((loadRecords s).filter
        (fun r => decide (r.type ≠ some "book" ∧ r.type ≠ some "movie"))).length ∧
    ((∀ r ∈ loadRecords s, r.type = some "book" ∨ r.type = some "movie") →
      (getStats env s "all").total =
        (getStats env s "all").books + (getStats env s "all").movies) := by
  have hsplit := length_by_type (loadRecords s)
  simp only [getStats, statsKeeps_all]
  refine ⟨hsplit, fun h => ?_⟩
  have hnone : (loadRecords s).filter
      (fun r => decide (r.type ≠ some "book" ∧ r.type ≠ some "movie")) = [] := by
    rw [List.filter_eq_nil_iff]
    intro r hr
    rcases h r hr with hb | hm
    · simp [hb]
    · simp [hm]
  rw [hnone] at hsplit
  simpa using hsplit

/-- C4 (as stated) fails: a store holding one record of type `game` has `total = 1` while
`books = 0` and `movies = 0`. -/
theorem getStats_all_total_game :
    (getStats sampleEnv storeGame "all").total = 1 ∧
    (getStats sampleEnv storeGame "all").books = 0 ∧
    (getStats sampleEnv storeGame "all").movies = 0 ∧
    (getStats sampleEnv storeGame "all").total ≠
      (getStats sampleEnv storeGame "all").books + (getStats sampleEnv storeGame "all").movies := by
  decide

theorem foldl_add_ratings (l : List Record) (acc : ℚ) :
    l.foldl (fun sum r => sum + ratingOrZero r) acc = acc + (l.map ratingOrZero).sum := by
  induction l generalizing acc with
  | nil => simp
  | cons a as ih =>
    simp only [List.foldl_cons, List.map_cons, List.sum_cons, ih]
    ring

theorem statsKeeps_eq_selects (env : Env) (range : String)
    (h : range = "year" ∨ range = "month" ∨ range = "all") (r : Record) :
    statsKeeps env range r = selects env range r := by
  have hym : ("year" : String) ≠ "month" := by decide
  have hya : ("year" : String) ≠ "all" := by decide
  have hma : ("month" : String) ≠ "all" := by decide
  rcases h with rfl | rfl | rfl
  · simp only [statsKeeps, selects, dateOf, hya, if_false, if_true]
    cases r.date with
    | none => rfl
    | some d =>
      by_cases hd : d = ""
      · simp [hd]
      · simp only [hd, if_false]
  · simp only [statsKeeps, selects, dateOf, hma, hym.symm, if_false, if_true]
    cases r.date with
    | none => rfl
    | some d =>
      by_cases hd : d = ""
      · simp [hd]
      · simp only [hd, if_false]
        cases env.parseDate d with
        | none => rfl
        | some ym => simp [Bool.decide_and]
  · simp [statsKeeps, selects, hya.symm, hma.symm]

/-- C5 (as amended): for `range` among `year`, `month` and `all`, `getStats(range).avgRating`
is the arithmetic mean of the ratings (a missing rating counting as 0) of the records the range
selects, `total` is their number, and `avgRating` is 0 when none is selected; on the worked
example, for a host in June 2024 that reads both dates as falling in June 2024,
`getStats('month')` is `{books: 1, movies: 1, avgRating: 4.5, total: 2}`. -/
theorem getStats_avgRating (env : Env) (s : Storage) (range : String)
    (h : range = "year" ∨ range = "month" ∨ range = "all") :
    (getStats env s range).avgRating =
      mean (((loadRecords s).filter (selects env range)).map ratingOrZero) ∧
    (getStats env s range).total = ((loadRecords s).filter (selects env range)).length ∧
    ((loadRecords s).filter (selects env range) = [] → (getStats env s range).avgRating = 0) ∧
    (∀ (host : Env) (store : Storage),
      loadRecords store = [bookA, movieB] →
      host.today = { year := 2024, month := 5 } →
      host.parseDate "2024-06-01" = some { year := 2024, month := 5 } →
      host.parseDate "2024-06-15" = some { year := 2024, month := 5 } →
      getStats host store "month" =
        { books := 1, movies := 1, avgRating := 9 / 2, total := 2 }) := by
  have hfilter : (loadRecords s).filter (statsKeeps env range) =
      (loadRecords s).filter (selects env range) :=
    List.filter_congr (fun r _ => statsKeeps_eq_selects env range h r)
  have havg : (getStats env s range).avgRating =
      mean (((loadRecords s).filter (selects env range)).map ratingOrZero) := by
    simp only [getStats, hfilter, mean, foldl_add_ratings, zero_add]
    cases hl : (loadRecords s).filter (selects env range) with
    | nil => simp
    | cons a as => simp
  refine ⟨havg, ?_, ?_, ?_⟩
  · simp only [getStats, hfilter]
  · intro hnil
    rw [havg, hnil]
    rfl
  · intro host store hload htoday h1 h15
    simp [getStats, hload, statsKeeps, bookA, movieB, Record.empty, htoday, h1, h15,
      ratingOrZero]
    norm_num

/-- Witness for C5: the worked example on the sample host, which reads dates on UTC. -/
theorem getStats_avgRating_witness :
    ("month" = "year" ∨ "month" = "month" ∨ "month" = "all") ∧
    getStats sampleEnv storeJune "month" =
      { books := 1, movies := 1, avgRating := 9 / 2, total := 2 } :=
  ⟨by decide,
    (getStats_avgRating sampleEnv storeJune "month" (by decide)).2.2.2 sampleEnv storeJune
      rfl rfl (by decide) (by decide)⟩

/-- C5 (as stated) fails on a host behind UTC: its current date is in June 2024, the store
holds the book dated 2024-06-01 and the movie dated 2024-06-15, but `new Date("2024-06-01")`
is midnight UTC, which that host reads as May; `getStats('month')` counts the movie alone. -/
theorem getStats_month_west_of_utc :
    westEnv.today = { year := 2024, month := 5 } ∧
    loadRecords storeJune = [bookA, movieB] ∧
    westEnv.parseDate "2024-06-01" = some { year := 2024, month := 4 } ∧
    westEnv.parseDate "2024-06-15" = some { year := 2024, month := 5 } ∧
    getStats westEnv storeJune "month" =
      { books := 0, movies := 1, avgRating := 5, total := 1 } ∧
    getStats westEnv storeJune "month" ≠
      { books := 1, movies := 1, avgRating := 9 / 2, total := 2 } := by
  refine ⟨rfl, rfl, by decide, by decide, by decide!, by decide!⟩

/-! ## C6: monthly best -/

theorem insertSorted_perm {α : Type} (cmp : α → α → Option ℚ) (a : α) (l : List α) :
    (insertSorted cmp a l).Perm (a :: l) := by
  induction l with
  | nil => exact List.Perm.refl _
  | cons b l ih =>
    by_cases h : keepsOrder cmp a b = true
    · simp only [insertSorted, h, if_true]
      exact List.Perm.refl _
    · simp only [insertSorted, h, if_false]
      exact (List.Perm.cons b ih).trans (List.Perm.swap a b l)

theorem sortBy_perm {α : Type} (cmp : α → α → Option ℚ) (l : List α) :
    (sortBy cmp l).Perm l := by
  induction l with
  | nil => exact List.Perm.refl _
  | cons a l ih =>
    simp only [sortBy]
    exact (insertSorted_perm cmp a _).trans (List.Perm.cons a ih)

theorem keepsOrder_rated (a b : Record) (x y : ℚ) (ha : a.rating = some x)
    (hb : b.rating = some y) : keepsOrder byRatingDesc a b = true ↔ y ≤ x := by
  simp [keepsOrder, byRatingDesc, ha, hb]

theorem insertSorted_desc (a : Record) (l : List Record)
    (hall : ∀ r ∈ a :: l, r.rating.isSome = true)
    (hs : l.Pairwise (fun p q => ratingOrZero q ≤ ratingOrZero p)) :
    (insertSorted byRatingDesc a l).Pairwise (fun p q => ratingOrZero q ≤ ratingOrZero p) := by
  induction l with
  | nil => simp [insertSorted]
  | cons b l ih =>
    obtain ⟨x, hx⟩ := Option.isSome_iff_exists.mp (hall a (List.mem_cons_self _ _))
    obtain ⟨y, hy⟩ := Option.isSome_iff_exists.mp
      (hall b (List.mem_cons_of_mem _ (List.mem_cons_self _ _)))
    have hra : ratingOrZero a = x := by simp [ratingOrZero, hx]
    have hrb : ratingOrZero b = y := by simp [ratingOrZero, hy]
    rw [List.pairwise_cons] at hs
    by_cases h : keepsOrder byRatingDesc a b = true
    · simp only [insertSorted, h, if_true]
      have hyx : y ≤ x := (keepsOrder_rated a b x y hx hy).mp h
      refine List.Pairwise.cons ?_ (List.Pairwise.cons hs.1 hs.2)
      intro c hc
      rcases List.mem_cons.mp hc with rfl | hc
      · rw [hra, hrb]; exact hyx
      · have := hs.1 c hc
        rw [hrb] at this
        rw [hra]
        exact le_trans this hyx
    · simp only [insertSorted, h, if_false]
      have hxy : x ≤ y := by
        rw [keepsOrder_rated a b x y hx hy] at h
        exact le_of_lt (not_le.mp h)
      have hall2 : ∀ r ∈ a :: l, r.rating.isSome = true := by
        intro r hr
        rcases List.mem_cons.mp hr with rfl | hr
        · exact hall _ (List.mem_cons_self _ _)
        · exact hall r (List.mem_cons_of_mem _ (List.mem_cons_of_mem _ hr))
      refine List.Pairwise.cons ?_ (ih hall2 hs.2)
      intro c hc
      rcases List.mem_cons.mp ((insertSorted_perm byRatingDesc a l).mem_iff.mp hc) with rfl | hc
      · rw [hra, hrb]; exact hxy
      · exact hs.1 c hc

theorem sortBy_desc (l : List Record) (hall : ∀ r ∈ l, r.rating.isSome = true) :
    (sortBy byRatingDesc l).Pairwise (fun p q => ratingOrZero q ≤ ratingOrZero p) := by
  induction l with
  | nil => simp [sortBy]
  | cons a l ih =>
    simp only [sortBy]
    apply insertSorted_desc
    · intro r hr
      rcases List.mem_cons.mp hr with rfl | hr
      · exact hall _ (List.mem_cons_self _ _)
      · exact hall r (List.mem_cons_of_mem _ ((sortBy_perm byRatingDesc l).mem_iff.mp hr))
    · exact ih (fun r hr => hall r (List.mem_cons_of_mem _ hr))

theorem monthlyKeeps_iff (env : Env) (type : String) (r : Record) :
    monthlyKeeps env type r = true ↔
      (type = "all" ∨ r.type = some type) ∧ dateOf env r = some env.today := by
  have hym : ∀ ym : YearMonth, (ym.month = env.today.month ∧ ym.year = env.today.year) ↔
      ym = env.today := by
    intro ym
    cases ym with
    | mk y m =>
      cases hty : env.today with
      | mk y2 m2 => simp [and_comm]
  by_cases hrej : typeRejected type r = true
  · have hno : ¬ (type = "all" ∨ r.type = some type) := by
      simp only [typeRejected, Bool.and_eq_true, decide_eq_true_eq] at hrej
      rintro (h | h)
      · exact hrej.1 h
      · exact hrej.2 h
    simp [monthlyKeeps, hrej, hno]
  · have hyes : type = "all" ∨ r.type = some type := by
      simp only [typeRejected, Bool.and_eq_true, decide_eq_true_eq, not_and, not_not] at hrej
      by_cases h : type = "all"
      · exact Or.inl h
      · exact Or.inr (hrej h)
    simp only [monthlyKeeps, hrej, Bool.false_eq_true, if_false, dateOf, hyes, true_and]
    cases r.date with
    | none => simp
    | some d =>
      by_cases hd : d = ""
      · simp [hd]
      · simp only [hd, if_false]
        cases env.parseDate d with
        | none => simp
        | some ym => simpa using hym ym

/-- The part of C6 that holds: `getMonthlyBest` returns at most `limit` records, every one a
stored record that matches the type filter and whose date parses to the current month and year;
when every such stored record has a rating, the result is in descending order of rating. -/
theorem getMonthlyBest_rated (env : Env) (s : Storage) (type : String) (limit : Nat) :
    (getMonthlyBest env s type limit).length ≤ limit ∧
    (∀ r ∈ getMonthlyBest env s type limit,
      r ∈ loadRecords s ∧ (type = "all" ∨ r.type = some type) ∧
      dateOf env r = some env.today) ∧
    ((∀ r ∈ loadRecords s, monthlyKeeps env type r = true → r.rating.isSome = true) →
      (getMonthlyBest env s type limit).Pairwise
        (fun p q => ratingOrZero q ≤ ratingOrZero p)) := by
  refine ⟨?_, ?_, ?_⟩
  · simp only [getMonthlyBest, List.length_take]
    exact Nat.min_le_left _ _
  · intro r hr
    simp only [getMonthlyBest] at hr
    have h1 := (sortBy_perm byRatingDesc _).mem_iff.mp (List.mem_of_mem_take hr)
    obtain ⟨hmem, hkeep⟩ := List.mem_filter.mp h1
    exact ⟨hmem, (monthlyKeeps_iff env type r).mp hkeep⟩
  · intro hall
    simp only [getMonthlyBest]
    refine List.Pairwise.sublist (List.take_sublist _ _) (sortBy_desc _ ?_)
    intro r hr
    obtain ⟨hmem, hkeep⟩ := List.mem_filter.mp hr
    exact hall r hmem hkeep

/-- C6 on the worked example and at a failing input: in June 2024 `getMonthlyBest('all', 5)`
is `[movieB, bookA]` on the worked example, but on a store holding a record without rating
between a 3 and a 5 it returns the three records in stored order, rating 3 ahead of rating 5. -/
theorem getMonthlyBest_unrated_order :
    getMonthlyBest sampleEnv storeJune "all" 5 = [movieB, bookA] ∧
    getMonthlyBest sampleEnv storeUnrated "all" 5 = [ratedThree, unrated, ratedFive] ∧
    ratedThree.rating = some 3 ∧ ratedFive.rating = some 5 ∧
    ¬ (getMonthlyBest sampleEnv storeUnrated "all" 5).Pairwise
        (fun p q => ∀ x y, p.rating = some x → q.rating = some y → y ≤ x) := by
  have h1 : getMonthlyBest sampleEnv storeJune "all" 5 = [movieB, bookA] := by decide!
  have h2 : getMonthlyBest sampleEnv storeUnrated "all" 5 = [ratedThree, unrated, ratedFive] := by
    decide!
  refine ⟨h1, h2, rfl, rfl, ?_⟩
  rw [h2]
  intro hp
  have h35 := (List.pairwise_cons.mp hp).1 ratedFive (by simp) 3 5 rfl rfl
  norm_num at h35

/-! ## C7 and C8: search -/

theorem beginsWith_iff (text pat : List Char) :
    beginsWith text pat = true ↔ ∃ post, text = pat ++ post := by
  induction pat generalizing text with
  | nil => simp [beginsWith]
  | cons p ps ih =>
    cases text with
    | nil => simp [beginsWith]
    | cons c cs =>
      simp only [beginsWith, Bool.and_eq_true, beq_iff_eq, ih, List.cons_append,
        List.cons.injEq]
      constructor
      · rintro ⟨rfl, post, rfl⟩
        exact ⟨post, rfl, rfl⟩
      · rintro ⟨post, rfl, rfl⟩
        exact ⟨rfl, post, rfl⟩

theorem includesChars_iff (text pat : List Char) :
    includesChars text pat = true ↔ ∃ pre post, text = pre ++ pat ++ post := by
  induction text with
  | nil =>
    cases pat with
    | nil => simp [includesChars]
    | cons p ps => simp [includesChars]
  | cons c cs ih =>
    simp only [includesChars, Bool.or_eq_true, beginsWith_iff, ih]
    constructor
    · rintro (⟨post, h⟩ | ⟨pre, post, h⟩)
      · exact ⟨[], post, by simpa using h⟩
      · exact ⟨c :: pre, post, by simp [h]⟩
    · rintro ⟨pre, post, h⟩
      cases pre with
      | nil => exact Or.inl ⟨post, by simpa using h⟩
      | cons a as =>
        simp only [List.cons_append, List.cons.injEq] at h
        exact Or.inr ⟨as, post, h.2⟩

theorem includes_iff (text pat : String) : includes text pat = true ↔ Occurs pat text := by
  simp only [includes, includesChars_iff, Occurs]

theorem orElseStr_empty (a : Option String) : orElseStr a "" = a.getD "" := by
  cases a with
  | none => rfl
  | some v =>
    by_cases h : v = ""
    · simp [orElseStr, h]
    · simp [orElseStr, h]

theorem typeRejected_all (r : Record) : typeRejected "all" r = false := by
  simp [typeRejected]

/-- C7 (as amended): when the query, lower-cased and trimmed, is a non-empty text `q`,
`searchRecords` returns exactly the stored records, in stored order, for which `q` occurs in
the lower-cased title, in the lower-cased note, or in the lower-cased text of the tags joined
by commas. -/
theorem searchRecords_matches (env : Env) (s : Storage) (query : String)
    (hq : trim (toLowerCase env query) ≠ "") :
    ∃ keep : Record → Bool,
      searchRecords env s query "all" = (loadRecords s).filter keep ∧
      (∀ r, keep r = true ↔
        (Occurs (trim (toLowerCase env query)) (toLowerCase env (r.title.getD "")) ∨
         Occurs (trim (toLowerCase env query)) (toLowerCase env (r.note.getD "")) ∨
         Occurs (trim (toLowerCase env query))
           (toLowerCase env (join "," (r.tags.getD []))))) := by
  refine ⟨searchKeeps env (trim (toLowerCase env query)) "all", rfl, ?_⟩
  intro r
  simp only [searchKeeps, typeRejected_all, Bool.false_eq_true, if_false, hq,
    orElseStr_empty, Bool.or_eq_true, includes_iff, or_assoc]

/-- Witness for C7: the query `CAT` on the store holding `catRecord`. -/
theorem searchRecords_matches_witness :
    trim (toLowerCase sampleEnv "CAT") ≠ "" ∧
    ∃ keep : Record → Bool,
      searchRecords sampleEnv storeCat "CAT" "all" = (loadRecords storeCat).filter keep ∧
      (∀ r, keep r = true ↔
        (Occurs (trim (toLowerCase sampleEnv "CAT")) (toLowerCase sampleEnv (r.title.getD "")) ∨
         Occurs (trim (toLowerCase sampleEnv "CAT")) (toLowerCase sampleEnv (r.note.getD "")) ∨
         Occurs (trim (toLowerCase sampleEnv "CAT"))
           (toLowerCase sampleEnv (join "," (r.tags.getD []))))) :=
  ⟨by decide, searchRecords_matches sampleEnv storeCat "CAT" (by decide)⟩

/-- C7 (as stated) fails: the non-empty query ` a ` is trimmed to `a` and finds `cat`, though
` a ` is not a substring of any field; and `sci,fi` finds the record tagged `sci` and `fi`,
though it is not a substring of a single tag.  All texts are ASCII, so the host's case
mapping plays no part. -/
theorem searchRecords_trims_and_joins :
    " a " ≠ "" ∧
    searchRecords sampleEnv storeCat " a " "all" = [catRecord] ∧
    (loadRecords storeCat).filter (matchesSingleField sampleEnv " a ") = [] ∧
    searchRecords sampleEnv storeTagged "sci,fi" "all" = [taggedRecord] ∧
    (loadRecords storeTagged).filter (matchesSingleField sampleEnv "sci,fi") = [] := by
  decide

/-- C8: an empty query with type `all` returns every stored record in order; an empty query
with type `book` or `movie` returns exactly the stored records of that type, in order; and
for any query and type the result is a sublist of the stored sequence whose records all match
the type filter. -/
theorem searchRecords_type_filter (env : Env) (s : Storage) :
    searchRecords env s "" "all" = loadRecords s ∧
    (∀ t, t = "book" ∨ t = "movie" →
      searchRecords env s "" t = (loadRecords s).filter (fun r => decide (r.type = some t))) ∧
    (∀ query type,
      (searchRecords env s query type).Sublist (loadRecords s) ∧
      ∀ r ∈ searchRecords env s query type, type = "all" ∨ r.type = some type) := by
  have hempty : trim (toLowerCase env "") = "" := rfl
  refine ⟨?_, ?_, ?_⟩
  · simp only [searchRecords, hempty]
    rw [List.filter_eq_self]
    intro r _
    simp [searchKeeps, typeRejected_all]
  · intro t ht
    have hne : t ≠ "all" := by
      rcases ht with rfl | rfl <;> decide
    simp only [searchRecords, hempty]
    apply List.filter_congr
    intro r _
    by_cases hr : r.type = some t
    · simp [searchKeeps, typeRejected, hne, hr]
    · simp [searchKeeps, typeRejected, hne, hr]
  · intro query type
    refine ⟨List.filter_sublist _, ?_⟩
    intro r hr
    simp only [searchRecords] at hr
    have hk := (List.mem_filter.mp hr).2
    by_cases hrej : typeRejected type r = true
    · simp [searchKeeps, hrej] at hk
    · simp only [typeRejected, Bool.and_eq_true, decide_eq_true_eq, not_and, not_not] at hrej
      by_cases h : type = "all"
      · exact Or.inl h
      · exact Or.inr (hrej h)

/-! ## C9 and C10: export and import -/

theorem importFromJSON_parsed (env : Env) (s target : Storage) :
    (importFromJSON target (exportToJSON env s).parsed).2 =
      (saveCollections (saveRecords target (loadRecords s)).1 (loadCollections s)).1 := by
  simp [importFromJSON, exportToJSON, ExportDoc.parsed, Field.truthy, Field.isArray,
    Field.items]

/-- C9 (as amended): importing, into any storage, the document exported from a state gives
back the records (in the same order) when the write of the records succeeds, and the
collections when the write of the collections succeeds; when the document is imported into
the exporting state itself, both are as at export time whether the writes succeed or not. -/
theorem import_export_roundtrip (env : Env) (s target : Storage) :
    (importSavesRecords target (loadRecords s) = true →
      loadRecords (importFromJSON target (exportToJSON env s).parsed).2 = loadRecords s) ∧
    (importSavesCollections target (loadRecords s) (loadCollections s) = true →
      loadCollections (importFromJSON target (exportToJSON env s).parsed).2 =
        loadCollections s) ∧
    loadRecords (importFromJSON s (exportToJSON env s).parsed).2 = loadRecords s ∧
    loadCollections (importFromJSON s (exportToJSON env s).parsed).2 = loadCollections s := by
  refine ⟨?_, ?_, ?_, ?_⟩
  · intro h
    rw [importFromJSON_parsed, loadRecords_saveCollections, saveRecords_saved _ _ h]
    rfl
  · intro h
    rw [importFromJSON_parsed, saveCollections_saved _ _ h]
    rfl
  · rw [importFromJSON_parsed, loadRecords_saveCollections]
    rcases loadRecords_saveRecords s (loadRecords s) with ⟨_, h⟩ | ⟨_, h⟩
    · exact h
    · rw [h]
  · rw [importFromJSON_parsed]
    rcases loadCollections_saveCollections (saveRecords s (loadRecords s)).1
      (loadCollections s) with ⟨_, h⟩ | ⟨_, h⟩
    · exact h
    · rw [h, loadCollections_saveRecords]

/-- Witness for C9: the document exported from `storeJune`, imported into `storeA`. -/
theorem import_export_roundtrip_witness :
    importSavesRecords storeA (loadRecords storeJune) = true ∧
    loadRecords (importFromJSON storeA (exportToJSON sampleEnv storeJune).parsed).2 =
      loadRecords storeJune :=
  ⟨by decide, (import_export_roundtrip sampleEnv storeJune storeA).1 (by decide)⟩

/-- C9 (as stated) fails: the document exported from `storeJune` is imported into `storeFull`,
whose quota is used up; the write of the two records is refused, and the store still holds
`oldA` instead of the exported records. -/
theorem import_refused_when_full :
    (exportToJSON sampleEnv storeJune).records = [bookA, movieB] ∧
    importSavesRecords storeFull (loadRecords storeJune) = false ∧
    loadRecords (importFromJSON storeFull (exportToJSON sampleEnv storeJune).parsed).2 = [oldA] ∧
    loadRecords (importFromJSON storeFull (exportToJSON sampleEnv storeJune).parsed).2 ≠
      loadRecords storeJune := by
  refine ⟨rfl, by decide, by decide, by decide⟩

theorem saveCollections_records (s : Storage) (names : List String) :
    (saveCollections s names).1.records = s.records := by
  rcases loadCollections_saveCollections s names with ⟨h, _⟩ | ⟨_, h⟩
  · rw [saveCollections_saved s names h]
  · rw [h]

theorem saveRecords_collections (s : Storage) (records : List Record) :
    (saveRecords s records).1.collections = s.collections := by
  rcases loadRecords_saveRecords s records with ⟨h, _⟩ | ⟨_, h⟩
  · rw [saveRecords_saved s records h]
  · rw [h]

/-- The part of C10 that holds: an array under `records` is counted by its length and, when
its write succeeds, replaces the record store; an array under `collections` is counted by its
length and replaces the collection store or, when its write is refused, leaves it as it is;
an absent key leaves its store unchanged and counts 0. -/
theorem importFromJSON_arrays (s : Storage) (data : ImportDoc) :
    (∀ items, data.records = .array items →
      (importFromJSON s data).1.recordsCount = items.length ∧
      (importSavesRecords s items = true → loadRecords (importFromJSON s data).2 = items)) ∧
    (∀ names, data.collections = .array names →
      (importFromJSON s data).1.collectionsCount = names.length ∧
      (loadCollections (importFromJSON s data).2 = names ∨
        loadCollections (importFromJSON s data).2 = loadCollections s)) ∧
    (data.records = .absent →
      (importFromJSON s data).2.records = s.records ∧
      (importFromJSON s data).1.recordsCount = 0) ∧
    (data.collections = .absent →
      (importFromJSON s data).2.collections = s.collections ∧
      (importFromJSON s data).1.collectionsCount = 0) := by
  refine ⟨?_, ?_, ?_, ?_⟩
  · intro items h
    refine ⟨by simp [importFromJSON, h, Field.lengthOrZero], fun hsaved => ?_⟩
    have hs1 : loadRecords (saveRecords s items).1 = items := by
      rw [saveRecords_saved s items hsaved]
      rfl
    simp only [importFromJSON, h, Field.truthy, Field.isArray, Field.items, Bool.and_self,
      if_true]
    split
    · rw [loadRecords_saveCollections, hs1]
    · exact hs1
  · intro names h
    refine ⟨by simp [importFromJSON, h, Field.lengthOrZero], ?_⟩
    have key : ∀ s1 : Storage, loadCollections s1 = loadCollections s →
        (loadCollections (saveCollections s1 names).1 = names ∨
          loadCollections (saveCollections s1 names).1 = loadCollections s) := by
      intro s1 hs1
      rcases loadCollections_saveCollections s1 names with ⟨_, h2⟩ | ⟨_, h2⟩
      · exact Or.inl h2
      · rw [h2]
        exact Or.inr hs1
    obtain ⟨recs, cols, exported⟩ := data
    simp only at h
    subst h
    cases recs <;>
      simp only [importFromJSON, Field.truthy, Field.isArray, Field.items, Bool.and_true,
        Bool.and_false, Bool.and_self, if_true, if_false, Bool.false_eq_true] <;>
      first
        | exact key _ rfl
        | exact key _ (loadCollections_saveRecords _ _)
  · intro h
    refine ⟨?_, by simp [importFromJSON, h, Field.lengthOrZero]⟩
    simp only [importFromJSON, h, Field.truthy, Field.isArray, Bool.and_self,
      Bool.false_eq_true, if_false]
    split
    · rw [saveCollections_records]
    · rfl
  · intro h
    refine ⟨?_, by simp [importFromJSON, h, Field.lengthOrZero]⟩
    simp only [importFromJSON, h, Field.truthy, Field.isArray, Bool.and_self,
      Bool.false_eq_true, if_false]
    split
    · rw [saveRecords_collections]
    · rfl

/-- C10 at a failing input: for the file `{"records": "abc"}` nothing is written (both stores
are as before), yet `recordsCount` is 3, the length of the text. -/
theorem importFromJSON_counts_text :
    importFromJSON storeA textImport =
      ({ recordsCount := 3, collectionsCount := 0 }, storeA) ∧
    loadRecords (importFromJSON storeA textImport).2 = loadRecords storeA ∧
    (importFromJSON storeA textImport).1.recordsCount ≠ 0 := by
  refine ⟨rfl, rfl, by decide⟩

/-! ## C11: adding a collection -/

theorem addCollection_of_mem (s : Storage) (name : String) (h : name ∈ loadCollections s) :
    addCollection s name = (loadCollections s, s) := by
  simp [addCollection, h]

theorem addCollection_of_not_mem (s : Storage) (name : String) (h : ¬ name ∈ loadCollections s) :
    addCollection s name =
      (loadCollections s ++ [name], (saveCollections s (loadCollections s ++ [name])).1) := by
  simp [addCollection, h]

theorem loadRecords_addCollection (s : Storage) (name : String) :
    loadRecords (addCollection s name).2 = loadRecords s := by
  by_cases h : name ∈ loadCollections s
  · rw [addCollection_of_mem s name h]
  · rw [addCollection_of_not_mem s name h]
    exact loadRecords_saveCollections s _

/-- C11 (as amended): `addCollection(name)` leaves the storage as it is when `name` is already
stored; otherwise, when the save succeeds, it stores the old names followed by `name`, and when
the save is refused it leaves the storage as it is; a second call with the same name changes
nothing more; and a list without duplicates stays without. -/
theorem addCollection_idempotent (s : Storage) (name : String) :
    (name ∈ loadCollections s → (addCollection s name).2 = s) ∧
    (¬ name ∈ loadCollections s → addCollectionSaves s name = true →
      loadCollections (addCollection s name).2 = loadCollections s ++ [name]) ∧
    (¬ name ∈ loadCollections s → addCollectionSaves s name = false →
      (addCollection s name).2 = s) ∧
    (addCollection (addCollection s name).2 name).2 = (addCollection s name).2 ∧
    ((loadCollections s).Nodup → (loadCollections (addCollection s name).2).Nodup) := by
  by_cases h : name ∈ loadCollections s
  · have hadd := addCollection_of_mem s name h
    refine ⟨fun _ => by rw [hadd], fun hn => absurd h hn, fun hn => absurd h hn, ?_,
      fun hnd => by rw [hadd]; exact hnd⟩
    rw [hadd]
    show (addCollection s name).2 = s
    rw [hadd]
  · have hadd := addCollection_of_not_mem s name h
    rcases loadCollections_saveCollections s (loadCollections s ++ [name]) with
      ⟨hyes, hload⟩ | ⟨hno, hsame⟩
    · have hafter : loadCollections (addCollection s name).2 = loadCollections s ++ [name] := by
        rw [hadd]
        exact hload
      have hmem : name ∈ loadCollections (addCollection s name).2 := by
        rw [hafter]
        simp
      refine ⟨fun hm => absurd hm h, fun _ _ => hafter, ?_, ?_, ?_⟩
      · intro _ hfalse
        rw [addCollectionSaves, hyes] at hfalse
        exact absurd hfalse (by decide)
      · rw [addCollection_of_mem _ name hmem]
      · intro hnd
        rw [hafter]
        exact List.Nodup.append hnd (List.nodup_singleton name)
          (by
            intro x hx hx2
            rw [List.mem_singleton] at hx2
            exact h (hx2 ▸ hx))
    · have hafter : (addCollection s name).2 = s := by
        rw [hadd]
        exact hsame
      refine ⟨fun hm => absurd hm h, ?_, fun _ _ => hafter, ?_, ?_⟩
      · intro _ htrue
        rw [addCollectionSaves, hno] at htrue
        exact absurd htrue (by decide)
      · rw [hafter, hafter]
      · intro hnd
        rw [hafter]
        exact hnd

/-- Witness for C11: adding `novels` to the roomy store `storeShelves`. -/
theorem addCollection_idempotent_witness :
    ¬ "novels" ∈ loadCollections storeShelves ∧ addCollectionSaves storeShelves "novels" = true ∧
    loadCollections (addCollection storeShelves "novels").2 =
      loadCollections storeShelves ++ ["novels"] :=
  ⟨by decide, by decide,
    (addCollection_idempotent storeShelves "novels").2.1 (by decide) (by decide)⟩

/-- C11 (as stated) fails: `sci-fi` is not among the names of `shelvesFull`, whose quota is
used up; `addCollection("sci-fi")` returns the list with the name pushed, but the write is
refused and the stored list is still `classics` alone. -/
theorem addCollection_refused_when_full :
    ¬ "sci-fi" ∈ loadCollections shelvesFull ∧
    addCollectionSaves shelvesFull "sci-fi" = false ∧
    (addCollection shelvesFull "sci-fi").1 = ["classics", "sci-fi"] ∧
    loadCollections (addCollection shelvesFull "sci-fi").2 = ["classics"] ∧
    loadCollections (addCollection shelvesFull "sci-fi").2 ≠
      loadCollections shelvesFull ++ ["sci-fi"] := by
  refine ⟨by decide, by decide, by decide, by decide, by decide⟩

/-! ## C12: the combined catalog search -/

theorem interleave_nil_right {α : Type} (ms : List α) : interleave ms [] = ms := by
  cases ms <;> rfl

theorem length_interleave {α : Type} (ms bs : List α) :
    (interleave ms bs).length = ms.length + bs.length := by
  induction ms generalizing bs with
  | nil => simp [interleave]
  | cons m ms ih =>
    cases bs with
    | nil => simp [interleave]
    | cons b bs =>
      simp only [interleave, List.length_cons, ih]
      omega

theorem interleave_sublist_left {α : Type} (ms bs : List α) :
    ms.Sublist (interleave ms bs) := by
  induction ms generalizing bs with
  | nil => exact List.nil_sublist _
  | cons m ms ih =>
    cases bs with
    | nil => exact List.Sublist.refl _
    | cons b bs => exact List.Sublist.cons₂ m (List.Sublist.cons b (ih bs))

theorem interleave_sublist_right {α : Type} (ms bs : List α) :
    bs.Sublist (interleave ms bs) := by
  induction ms generalizing bs with
  | nil => exact List.Sublist.refl _
  | cons m ms ih =>
    cases bs with
    | nil => exact List.nil_sublist _
    | cons b bs => exact List.Sublist.cons m (List.Sublist.cons₂ b (ih bs))

theorem take_interleave {α : Type} (n : Nat) (ms bs : List α) :
    ∃ a b, (interleave ms bs).take n = interleave (ms.take a) (bs.take b) := by
  induction ms generalizing bs n with
  | nil => exact ⟨0, n, by simp [interleave]⟩
  | cons m ms ih =>
    cases bs with
    | nil => exact ⟨n, 0, by simp [interleave, interleave_nil_right]⟩
    | cons b bs =>
      cases n with
      | zero => exact ⟨0, 0, by simp [interleave]⟩
      | succ n =>
        cases n with
        | zero => exact ⟨1, 0, by simp [interleave]⟩
        | succ n =>
          obtain ⟨a, c, h⟩ := ih n bs
          exact ⟨a + 1, c + 1, by simp [interleave, h]⟩

theorem interleave_take_succ {α : Type} (n : Nat) (ms bs : List α) :
    interleave (ms.take (n + 1)) (bs.take (n + 1)) =
      interleave (ms.take n) (bs.take n) ++ (ms[n]?).toList ++ (bs[n]?).toList := by
  induction n generalizing ms bs with
  | zero =>
    cases ms with
    | nil => cases bs <;> simp [interleave]
    | cons m ms => cases bs <;> simp [interleave]
  | succ k ih =>
    cases ms with
    | nil =>
      cases bs with
      | nil => simp [interleave]
      | cons b bs =>
        simp only [List.take_nil, interleave, List.getElem?_nil, Option.toList_none,
          List.append_nil]
        exact List.take_succ
    | cons m ms =>
      cases bs with
      | nil =>
        simp only [List.take_nil, interleave_nil_right, List.getElem?_nil, Option.toList_none,
          List.append_nil]
        exact List.take_succ
      | cons b bs =>
        simp only [List.take_succ_cons, interleave, List.getElem?_cons_succ, List.cons_append,
          ih ms bs]

theorem pushRound_eq {α : Type} (books movies result : List α) (i : Nat) :
    pushRound books movies result i = result ++ (movies[i]?).toList ++ (books[i]?).toList := by
  unfold pushRound
  by_cases hm : i < movies.length
  · by_cases hb : i < books.length
    · simp [hm, hb]
    · simp [hm, hb, List.getElem?_eq_none (Nat.le_of_not_lt hb)]
  · by_cases hb : i < books.length
    · simp [hm, hb, List.getElem?_eq_none (Nat.le_of_not_lt hm)]
    · simp [hm, hb, List.getElem?_eq_none (Nat.le_of_not_lt hm),
        List.getElem?_eq_none (Nat.le_of_not_lt hb)]

theorem foldl_pushRound {α : Type} (books movies : List α) (n : Nat) :
    (List.range n).foldl (pushRound books movies) [] =
      interleave (movies.take n) (books.take n) := by
  induction n with
  | zero => simp [interleave]
  | succ n ih =>
    rw [List.range_succ, List.foldl_append, ih]
    simp only [List.foldl_cons, List.foldl_nil, pushRound_eq, interleave_take_succ]

theorem combineResults_eq {α : Type} (books movies : List α) :
    combineResults books movies = (interleave movies books).take 15 := by
  unfold combineResults
  simp only [foldl_pushRound]
  rw [List.take_of_length_le (le_max_right _ _), List.take_of_length_le (le_max_left _ _)]

/-- C12: for all result lists `books` and `movies`, the loop of `searchAll` yields the first 15
items of the alternation `movies[0], books[0], movies[1], books[1], ...` continued by the rest
of the longer list; it has `min 15 (|books| + |movies|)` items, is the alternation of a leading
part of each source (so each source keeps its order), and is the first 15 items of the other
source when one is empty; `searchAll` returns it for the lists the two searches return. -/
theorem searchAll_interleaves (host : Catalogs) (query : String) :
    (∀ books movies : List Item,
      combineResults books movies = (interleave movies books).take 15 ∧
      (combineResults books movies).length = min 15 (books.length + movies.length) ∧
      (∃ a b, combineResults books movies = interleave (movies.take a) (books.take b) ∧
        (movies.take a).Sublist (combineResults books movies) ∧
        (books.take b).Sublist (combineResults books movies)) ∧
      combineResults books [] = books.take 15 ∧
      combineResults [] movies = movies.take 15) ∧
    searchAll host query =
      combineResults (searchBooks host (trim query)) (searchMovies host (trim query)) := by
  refine ⟨fun books movies => ⟨combineResults_eq books movies, ?_, ?_, ?_, ?_⟩, ?_⟩
  · rw [combineResults_eq, List.length_take, length_interleave, Nat.add_comm]
  · obtain ⟨a, b, h⟩ := take_interleave 15 movies books
    rw [combineResults_eq, h]
    exact ⟨a, b, rfl, interleave_sublist_left _ _, interleave_sublist_right _ _⟩
  · rw [combineResults_eq]
    rfl
  · rw [combineResults_eq, interleave_nil_right]
  · by_cases hq : trim query = ""
    · have hb : searchBooks host "" = [] := rfl
      have hm : searchMovies host "" = [] := rfl
      simp only [searchAll, hq, if_true, hb, hm]
      rfl
    · simp only [searchAll, hq, if_false]

/-! ## C13: saving needs an item and a rating -/

theorem loadRecords_addCollections (s : Storage) (tags : List String) :
    loadRecords (addCollections s tags) = loadRecords s := by
  induction tags generalizing s with
  | nil => rfl
  | cons t ts ih =>
    simp only [addCollections, List.foldl_cons] at ih ⊢
    rw [ih, loadRecords_addCollection]

theorem saveRecord_of_ready (env : Env) (st : AppState) (s : Storage) (item : Item)
    (hitem : st.selectedItem = some item) (hrating : st.rating ≠ 0) :
    loadRecords (saveRecord env st s).2 =
      loadRecords (upsertRecord env s (recordToSave env st item)).2 := by
  simp only [saveRecord, hitem, hrating, if_false]
  rw [loadRecords_addCollections]

theorem mergedRecord_rating (env : Env) (x r : Record) (q : ℚ) (h : r.rating = some q) :
    (mergedRecord env x r).rating = some q := by
  simp [mergedRecord, spread, spreadKey, h]

theorem upsertList_rating (env : Env) (records : List Record) (r : Record) (q : ℚ)
    (h : r.rating = some q) :
    ∀ x ∈ upsertList env records r, x ∈ records ∨ x.rating = some q := by
  intro x hx
  rcases upsertList_cases env records r with ⟨_, hlist⟩ | ⟨pre, y, post, hrec, _, _, hlist⟩
  · rw [hlist] at hx
    rcases List.mem_cons.mp hx with rfl | hx
    · exact Or.inr (by simpa [insertedRecord] using h)
    · exact Or.inl hx
  · rw [hlist] at hx
    rw [hrec]
    rcases List.mem_append.mp hx with hx | hx
    · exact Or.inl (List.mem_append_left _ hx)
    · rcases List.mem_cons.mp hx with rfl | hx
      · exact Or.inr (mergedRecord_rating env y r q h)
      · exact Or.inl (List.mem_append_right _ (List.mem_cons_of_mem _ hx))

theorem upsertRecord_rating (env : Env) (s : Storage) (r : Record) (q : ℚ)
    (h : r.rating = some q) :
    (loadRecords (upsertRecord env s r).2).length ≤ (loadRecords s).length + 1 ∧
    ∀ x ∈ loadRecords (upsertRecord env s r).2, x ∈ loadRecords s ∨ x.rating = some q := by
  rcases loadRecords_upsertRecord env s r with ⟨_, hafter⟩ | ⟨_, hafter⟩
  · rw [hafter]
    refine ⟨?_, upsertList_rating env _ r q h⟩
    rcases upsertList_cases env (loadRecords s) r with
      ⟨_, hlist⟩ | ⟨pre, y, post, hrec, _, _, hlist⟩
    · rw [hlist]
      simp
    · rw [hlist, hrec]
      simp
  · rw [hafter]
    exact ⟨Nat.le_succ _, fun x hx => Or.inl hx⟩

/-- C13: `saveRecord` leaves the whole storage (records and collections) as it is when no item
is selected or the rating is 0; otherwise the stored records are those of one `upsertRecord` of
a record whose rating is the rating of the state, and every stored record that was not stored
before has that rating; so no record with rating 0 enters the store through `saveRecord`. -/
theorem saveRecord_requires_rating (env : Env) (st : AppState) (s : Storage) :
    (st.selectedItem = none ∨ st.rating = 0 → (saveRecord env st s).2 = s) ∧
    (∀ item, st.selectedItem = some item → st.rating ≠ 0 →
      ∃ record : Record, record.rating = some st.rating ∧
        loadRecords (saveRecord env st s).2 = loadRecords (upsertRecord env s record).2 ∧
        (loadRecords (saveRecord env st s).2).length ≤ (loadRecords s).length + 1 ∧
        ∀ r ∈ loadRecords (saveRecord env st s).2,
          r ∈ loadRecords s ∨ r.rating = some st.rating) ∧
    (∀ r ∈ loadRecords (saveRecord env st s).2, r.rating = some 0 → r ∈ loadRecords s) := by
  refine ⟨?_, ?_, ?_⟩
  · rintro (h | h)
    · simp [saveRecord, h]
    · cases hsel : st.selectedItem <;> simp [saveRecord, hsel, h]
  · intro item hitem hrating
    have hsave := saveRecord_of_ready env st s item hitem hrating
    obtain ⟨hlen, hall⟩ := upsertRecord_rating env s (recordToSave env st item) st.rating rfl
    refine ⟨recordToSave env st item, rfl, hsave, ?_, ?_⟩
    · rw [hsave]
      exact hlen
    · rw [hsave]
      exact hall
  · intro r hr hzero
    cases hsel : st.selectedItem with
    | none =>
      have : (saveRecord env st s).2 = s := by simp [saveRecord, hsel]
      rw [this] at hr
      exact hr
    | some item =>
      by_cases hrating : st.rating = 0
      · have : (saveRecord env st s).2 = s := by simp [saveRecord, hsel, hrating]
        rw [this] at hr
        exact hr
      · rw [saveRecord_of_ready env st s item hsel hrating] at hr
        rcases (upsertRecord_rating env s (recordToSave env st item) st.rating rfl).2 r hr with
          h | h
        · exact h
        · rw [h] at hzero
          exact absurd (Option.some.inj hzero) hrating

/-! ## C14: the edit flow -/

theorem find?_of_unique_id (l : List Record) (r : Record) (i : Option String)
    (hnd : (l.map Record.id).Nodup) (hr : r ∈ l) (hid : r.id = i) :
    l.find? (fun x => decide (x.id = i)) = some r := by
  induction l with
  | nil => simp at hr
  | cons a l ih =>
    rw [List.map_cons, List.nodup_cons] at hnd
    by_cases ha : a.id = i
    · have hra : r = a := by
        rcases List.mem_cons.mp hr with h | h
        · exact h
        · exfalso
          apply hnd.1
          rw [ha, ← hid]
          exact List.mem_map_of_mem _ h
      simp [List.find?_cons, ha, hra]
    · have hrl : r ∈ l := by
        rcases List.mem_cons.mp hr with h | h
        · exact absurd (h ▸ hid) ha
        · exact h
      simp only [List.find?_cons, ha, decide_False]
      exact ih hnd.2 hrl

theorem editRecordClick_showDetail (s : Storage) (st : AppState) (r : Record)
    (hsync : st.records = loadRecords s) (hnd : ((loadRecords s).map Record.id).Nodup)
    (hr : r ∈ loadRecords s) :
    (editRecordClick (showDetail st r)).selectedItem =
      some { Item.empty with
        title := r.title, type := r.type, year := r.year, thumbnail := r.thumbnail } ∧
    (editRecordClick (showDetail st r)).editingId = r.id ∧
    (editRecordClick (showDetail st r)).rating = ratingOrZero r := by
  have hfind : (showDetail st r).records.find?
      (fun x => decide (x.id = (showDetail st r).editingId)) = some r := by
    show st.records.find? (fun x => decide (x.id = r.id)) = some r
    rw [hsync]
    exact find?_of_unique_id _ r r.id hnd hr rfl
  unfold editRecordClick
  rw [hfind]
  exact ⟨rfl, rfl, rfl⟩

/-- What the edit flow does in a store with pairwise distinct ids, for a stored record `r`
with a non-empty id: after the edit button and a save with a rating of at least 1 whose write
succeeds, the stored sequence differs from the old one only at the position of `r`, where the
one record with the id of `r` now stands; its title, type and `createdAt` are those of `r`,
its rating is the rating saved, and its author is the empty string. -/
theorem editFlow_keeps_identity (env : Env) (s : Storage) (st after : AppState) (r : Record)
    (v : String) (hsync : st.records = loadRecords s)
    (hnd : ((loadRecords s).map Record.id).Nodup) (hr : r ∈ loadRecords s)
    (hid : r.id = some v) (hne : v ≠ "")
    (hitem : after.selectedItem = (editRecordClick (showDetail st r)).selectedItem)
    (hedit : after.editingId = (editRecordClick (showDetail st r)).editingId)
    (hrating : 1 ≤ after.rating)
    (hsaved : upsertSaves env s (recordToSave env after { Item.empty with
      title := r.title, type := r.type, year := r.year, thumbnail := r.thumbnail }) = true) :
    ∃ pre post stored,
      loadRecords s = pre ++ r :: post ∧
      loadRecords (saveRecord env after s).2 = pre ++ stored :: post ∧
      (loadRecords (saveRecord env after s).2).filter (fun x => decide (x.id = some v)) =
        [stored] ∧
      stored.id = r.id ∧ stored.title = r.title ∧ stored.type = r.type ∧
      stored.createdAt = r.createdAt ∧ stored.rating = some after.rating ∧
      stored.author = some "" := by
  obtain ⟨hsel, heid, _⟩ := editRecordClick_showDetail s st r hsync hnd hr
  rw [hsel] at hitem
  rw [heid, hid] at hedit
  have hne0 : after.rating ≠ 0 := by
    intro h0
    rw [h0] at hrating
    norm_num at hrating
  have hsave := (saveRecord_of_ready env after s _ hitem hne0).trans
    (loadRecords_upsertRecord_saved env s _ hsaved)
  have hrecid : (recordToSave env after { Item.empty with
      title := r.title, type := r.type, year := r.year, thumbnail := r.thumbnail }).id =
      some v := by
    simp [recordToSave, hedit, orElseStr_some_ne _ hne]
  obtain ⟨_, stored0, hfilter, _⟩ :=
    upsertList_unique env (loadRecords s) _ v hnd hrecid hne
  rcases upsertList_cases env (loadRecords s) (recordToSave env after { Item.empty with
      title := r.title, type := r.type, year := r.year, thumbnail := r.thumbnail }) with
    ⟨hno, _⟩ | ⟨pre, x, post, hrec, hx, _, hlist⟩
  · exact absurd (hid.trans hrecid.symm) (hno r hr)
  · have hxr : x = r := by
      apply List.inj_on_of_nodup_map hnd _ hr (hx.trans (hrecid.trans hid.symm))
      rw [hrec]
      simp
    subst hxr
    have hmem : mergedRecord env x (recordToSave env after { Item.empty with
        title := x.title, type := x.type, year := x.year, thumbnail := x.thumbnail }) ∈
        (upsertList env (loadRecords s) (recordToSave env after { Item.empty with
          title := x.title, type := x.type, year := x.year, thumbnail := x.thumbnail })).filter
          (fun y => decide (y.id = some v)) := by
      rw [List.mem_filter, hlist]
      refine ⟨by simp, ?_⟩
      simp [mergedRecord_id_of_some env x _ v hrecid]
    rw [hfilter, List.mem_singleton] at hmem
    refine ⟨pre, post, _, hrec, by rw [hsave, hlist], by rw [hsave, hfilter, hmem], ?_, ?_, ?_,
      ?_, ?_, ?_⟩
    · rw [mergedRecord_id_of_some env x _ v hrecid, hid]
    · simp only [mergedRecord, spread, spreadKey, recordToSave, undefinedOf, Item.empty]
      cases x.title <;> simp
    · simp only [mergedRecord, spread, spreadKey, recordToSave, undefinedOf, Item.empty]
      cases x.type <;> simp
    · simp only [mergedRecord, spread, spreadKey, recordToSave, undefinedOf, Item.empty]
      cases x.title <;> cases x.type <;> simp
    · simp [mergedRecord, spread, spreadKey, recordToSave]
    · simp [mergedRecord, spread, spreadKey, recordToSave, Item.empty, orElseStr]

/-- C14 at a failing input: `authoredBook`, by Frank Herbert, is the only stored record;
opening it, pressing the edit button, choosing five stars and saving leaves one record with
its id, at its position, with its title, type and `createdAt`, but with the empty string as
author. -/
theorem editFlow_erases_author :
    loadRecords storeAuthored = [authoredBook] ∧
    editingAuthored.selectedItem =
      some { Item.empty with
        title := some "Dune", type := some "book", year := some "1965",
        thumbnail := some none } ∧
    editingAuthored.rating = 5 ∧
    loadRecords (saveRecord sampleEnv editingAuthored storeAuthored).2 =
      [{ authoredBook with
          author := some "", rating := some 5, date := some "2024-06-20",
          updatedAt := some 20 }] ∧
    authoredBook.author = some "Frank Herbert" ∧
    ¬ (∀ stored ∈ loadRecords (saveRecord sampleEnv editingAuthored storeAuthored).2,
        stored.author = authoredBook.author) := by
  have hsaved : loadRecords (saveRecord sampleEnv editingAuthored storeAuthored).2 =
      [{ authoredBook with
          author := some "", rating := some 5, date := some "2024-06-20",
          updatedAt := some 20 }] := by decide!
  refine ⟨rfl, by decide!, by decide!, hsaved, rfl, ?_⟩
  rw [hsaved]
  intro h
  have := h _ (List.mem_singleton.mpr rfl)
  revert this
  decide

end MediaDiary
